import Mathlib

/-!
Verification of the PDF problem-import pipeline of the test-platform
repository (src/backend/pdfImport.js, src/backend/answerUtils.js).

The JavaScript source is shallowly embedded: strings become `List Char`
(one entry per UTF-16 code unit; all inputs used here are ASCII, where the
two coincide), JavaScript numbers become exact rationals `ℚ` extended with
the IEEE special values (`MVal`), regular-expression scans become explicit
character scans, and every collaborator (the mathjs arithmetic evaluator,
the generative backend, the SQL client) is a parameter supplied by the
caller, so every run of an embedded function is a pure computation.

Definitions come first, then the theorems settling the claims.
-/

set_option autoImplicit false

/-! ### JavaScript-style character and string utilities -/

/-- JavaScript `\s` on the character set that occurs in this pipeline:
space, tab, newline, carriage return, vertical tab, form feed. -/
def isWs (c : Char) : Bool :=
  c = ' ' ∨ c = '\t' ∨ c = '\n' ∨ c = '\r' ∨ c = Char.ofNat 11 ∨ c = Char.ofNat 12

/-- ASCII lower-casing, as `String.prototype.toLowerCase` acts on ASCII. -/
def lowerCh (c : Char) : Char :=
  if 'A' ≤ c ∧ c ≤ 'Z' then Char.ofNat (c.toNat + 32) else c

def lowerL (l : List Char) : List Char := l.map lowerCh

/-- JavaScript `String.prototype.trim` (drop leading and trailing `\s`). -/
def jsTrim (l : List Char) : List Char :=
  ((l.dropWhile isWs).reverse.dropWhile isWs).reverse

/-- Keep only the first space of each space run (helper for `collapseWs`). -/
def squeezeSp : List Char → List Char
  | [] => []
  | [c] => [c]
  | c :: d :: rest =>
    if c = ' ' ∧ d = ' ' then squeezeSp (d :: rest) else c :: squeezeSp (d :: rest)

/-- `replace(/\s+/g, ' ')`: collapse every whitespace run to one space
(each whitespace character becomes a space, then runs are squeezed). -/
def collapseWs (l : List Char) : List Char :=
  squeezeSp (l.map (fun c => if isWs c then ' ' else c))

/-- Whitespace-collapse of the already trimmed string:
`m.trim().replace(/\s+/g, ' ')`. -/
def trimCollapse (l : List Char) : List Char := collapseWs (jsTrim l)

/-- Does `p` occur at the start of `l`? -/
def startsWithL : List Char → List Char → Bool
  | [], _ => true
  | _ :: _, [] => false
  | p :: ps, c :: cs => p = c ∧ startsWithL ps cs

/-- Does `p` occur anywhere inside `l` (JavaScript `includes`)? -/
def containsL (p : List Char) : List Char → Bool
  | [] => startsWithL p []
  | c :: cs => startsWithL p (c :: cs) ∨ containsL p cs

/-- Split on `/\r?\n/` exactly as `String.prototype.split` does. -/
def splitLinesGo (acc : List Char) : List Char → List (List Char)
  | [] => [acc.reverse]
  | '\r' :: '\n' :: rest => acc.reverse :: splitLinesGo [] rest
  | '\n' :: rest => acc.reverse :: splitLinesGo [] rest
  | c :: rest => splitLinesGo (c :: acc) rest

def splitLinesL (l : List Char) : List (List Char) := splitLinesGo [] l

/-- Digit-character test (`\d` is ASCII `0`-`9`). -/
def isDig (c : Char) : Bool := '0' ≤ c ∧ c ≤ '9'

/-- JavaScript word character (`\w` / the complement of `\b`). -/
def isWordCh (c : Char) : Bool :=
  ('a' ≤ c ∧ c ≤ 'z') ∨ ('A' ≤ c ∧ c ≤ 'Z') ∨ isDig c ∨ c = '_'

/-- Numeric value accumulated over a big-endian digit list, the way a
left-to-right scanner folds a literal up. -/
def digitsVal (l : List ℕ) : ℕ := l.foldl (fun a d => a * 10 + d) 0

/-- Value of a big-endian list of digit characters. -/
def digitCharsVal (l : List Char) : ℕ := l.foldl (fun a c => a * 10 + (c.toNat - 48)) 0

/-- Little-endian base-10 digits, by fuelled division (`Nat.digits 10`
uses well-founded recursion, which concrete runs cannot unfold). -/
def natDigitsLE : ℕ → ℕ → List ℕ
  | 0, _ => []
  | _ + 1, 0 => []
  | fuel + 1, n => n % 10 :: natDigitsLE fuel (n / 10)

/-- Big-endian base-10 digits of `n` (`[]` for `0`). -/
def natDigitsBE (n : ℕ) : List ℕ := (natDigitsLE n n).reverse

/-- Decimal digit characters of `n`, big-endian (`String(n)` for `n : ℕ`). -/
def natToChars (n : ℕ) : List Char :=
  if n = 0 then ['0'] else (natDigitsBE n).map (fun d => Char.ofNat (48 + d))

/-- `parseInt(digits, 10)` on a digit run (the runs scanned below). -/
def parseIntL (l : List Char) : ℕ := digitCharsVal l

/-! ### AnswerKeyParser (`parseAnswerKey`, pdfImport.js)

Each line is matched against `/^\s*(\d+)[\.\)\:]\s*(.+)$/`; whitespace in
the captured answer is collapsed and empty answers contribute nothing;
later entries overwrite earlier ones with the same number. -/

/-- Match one answer-key line against `^\s*(\d+)[\.\)\:]\s*(.+)$`,
returning the parsed number and the raw text of capture group 2.
The greedy `\s*` before `(.+)` backtracks by exactly one character when
the remainder of the line is all whitespace, so the capture is the
remainder with its maximal whitespace prefix removed — except that a
fully-whitespace remainder captures its final character. -/
def answerKeyLineMatch (l : List Char) : Option (ℕ × List Char) :=
  let afterWs := l.dropWhile isWs
  let digits := afterWs.takeWhile isDig
  let afterDigits := afterWs.dropWhile isDig
  if digits = [] then none
  else
    match afterDigits with
    | d :: rest =>
      if d = '.' ∨ d = ')' ∨ d = ':' then
        if h : rest = [] then none
        else
          let cap0 := rest.dropWhile isWs
          let cap := if cap0 = [] then [rest.getLast h] else cap0
          some (parseIntL digits, cap)
      else none
    | [] => none

/-- The number→answer map is a JavaScript object; only its lookup behaviour
is observable downstream, so it is embedded as an association list whose
`upsert` mirrors `map[num] = ans`. -/
def AnswerMap := List (ℕ × List Char)

def upsertAnswer (m : List (ℕ × List Char)) (k : ℕ) (v : List Char) : List (ℕ × List Char) :=
  match m with
  | [] => [(k, v)]
  | (k', v') :: rest => if k' = k then (k, v) :: rest else (k', v') :: upsertAnswer rest k v

def lookupAnswer (m : List (ℕ × List Char)) (k : ℕ) : Option (List Char) :=
  match m with
  | [] => none
  | (k', v) :: rest => if k' = k then some v else lookupAnswer rest k

/-- The body of the `parseAnswerKey` loop: skip a non-matching line,
otherwise collapse the answer and (for a non-empty answer) write
`map[num] = ans`. -/
def keyStep (map : List (ℕ × List Char)) (line : List Char) : List (ℕ × List Char) :=
  match answerKeyLineMatch line with
  | none => map
  | some (num, cap) =>
    let ans := trimCollapse cap
    if ans = [] then map else upsertAnswer map num ans

/-- `parseAnswerKey` (pdfImport.js lines 515-528), on the line list. -/
def parseAnswerKeyLines (lines : List (List Char)) : List (ℕ × List Char) :=
  lines.foldl keyStep []

/-- `parseAnswerKey(text)`: `{}` for a non-string/empty input, else the
fold over `text.split(/\r?\n/)`. -/
def parseAnswerKey (text : String) : List (ℕ × List Char) :=
  if text = "" then [] else parseAnswerKeyLines (splitLinesL text.toList)

/-- The contribution a single answer-key line makes for number `n`:
its collapsed answer, provided the line matches the entry pattern with
leading number `n` and the answer does not collapse to the empty string. -/
def keyContrib (n : ℕ) (line : List Char) : Option (List Char) :=
  match answerKeyLineMatch line with
  | none => none
  | some (num, cap) =>
    let ans := trimCollapse cap
    if num = n ∧ ans ≠ [] then some ans else none

/-- Specification-side reading of the claimed contract: the entry for `n`
is the collapsed answer of the last contributing line for `n`. -/
def lastKeyAnswer (text : String) (n : ℕ) : Option (List Char) :=
  if text = "" then none
  else ((splitLinesL text.toList).filterMap (keyContrib n)).getLast?

/-! ### AnswerNormalizer (`parseAnswerToNumber`, answerUtils.js)

`parseAnswerToNumber` rewrites radical shorthand into `sqrt(...)` calls and
hands the result to the mathjs `evaluate` collaborator; a result that is not
a plain non-NaN number (mathjs returns `Infinity` for `1/0`, `NaN` for
`0/0`, a `Complex` object for `sqrt(-1)`, and throws on anything it cannot
parse) maps to `null`.

Modelled from the spec: the collaborator arithmetic evaluator ("a
constrained expression evaluator (numbers, four arithmetic operators,
exponent, `sqrt`)", spec §4.4) is embedded as an exact-rational
tokenizer/recursive-descent evaluator over the grammar
`+ - * / ^ sqrt(...)` with the IEEE special values `Infinity`, `-Infinity`
and `NaN` made explicit; the two genuinely approximate operations (square
roots and non-integer powers, which are irrational in general) are
parameters in `EvalOracle`, so every theorem below quantifies over the
collaborator's rounding behaviour. -/

/-- A JavaScript/mathjs runtime value as seen by `parseAnswerToNumber`:
an (exact) finite number, one of the non-finite numbers, or a non-number
result such as a mathjs `Complex`. -/
inductive MVal where
  | num (q : ℚ)
  | inf
  | ninf
  | nan
  | cplx
  deriving DecidableEq, Repr

/-- The collaborator's two approximate operations: `sqrtQ q` stands for the
float `Math.sqrt`-style result on a non-negative `q`, and `powQ a b` for
`a ^ b` with non-negative base and non-integer exponent. -/
structure EvalOracle where
  sqrtQ : ℚ → ℚ
  powQ : ℚ → ℚ → ℚ

/-- Integer square root by search (adequate for the concrete runs below). -/
def intSqrt (n : ℕ) : ℕ := ((List.range (n + 2)).takeWhile (fun r => decide (r * r ≤ n))).length - 1

/-- A concrete instance of the collaborator: `sqrt(n/d) = sqrt(n·d)/d`
(exact on perfect squares, a truncation otherwise). -/
def ratSqrtApprox (q : ℚ) : ℚ := (intSqrt (q.num.toNat * q.den) : ℚ) / (q.den : ℚ)

/-- Default oracle used for concrete runs; no claim evaluates a non-integer
power, so `powQ` is a coarse stand-in. -/
def evalOracleJs : EvalOracle := ⟨ratSqrtApprox, fun _ _ => 1⟩

def mAdd : MVal → MVal → MVal
  | .nan, _ => .nan
  | _, .nan => .nan
  | .cplx, _ => .cplx
  | _, .cplx => .cplx
  | .inf, .ninf => .nan
  | .ninf, .inf => .nan
  | .inf, _ => .inf
  | _, .inf => .inf
  | .ninf, _ => .ninf
  | _, .ninf => .ninf
  | .num a, .num b => .num (a + b)

def mNeg : MVal → MVal
  | .num a => .num (-a)
  | .inf => .ninf
  | .ninf => .inf
  | .nan => .nan
  | .cplx => .cplx

/-- Subtraction; with no negative zero in the exact model, `a - b` and
`a + (-b)` have identical IEEE case tables. -/
def mSub (a b : MVal) : MVal := mAdd a (mNeg b)

def mMul : MVal → MVal → MVal
  | .nan, _ => .nan
  | _, .nan => .nan
  | .cplx, _ => .cplx
  | _, .cplx => .cplx
  | .inf, .inf => .inf
  | .inf, .ninf => .ninf
  | .ninf, .inf => .ninf
  | .ninf, .ninf => .inf
  | .inf, .num a => if a = 0 then .nan else if 0 < a then .inf else .ninf
  | .num a, .inf => if a = 0 then .nan else if 0 < a then .inf else .ninf
  | .ninf, .num a => if a = 0 then .nan else if 0 < a then .ninf else .inf
  | .num a, .ninf => if a = 0 then .nan else if 0 < a then .ninf else .inf
  | .num a, .num b => .num (a * b)

def mDiv : MVal → MVal → MVal
  | .nan, _ => .nan
  | _, .nan => .nan
  | .cplx, _ => .cplx
  | _, .cplx => .cplx
  | .inf, .inf => .nan
  | .inf, .ninf => .nan
  | .ninf, .inf => .nan
  | .ninf, .ninf => .nan
  | .inf, .num a => if 0 ≤ a then .inf else .ninf
  | .ninf, .num a => if 0 ≤ a then .ninf else .inf
  | .num _, .inf => .num 0
  | .num _, .ninf => .num 0
  | .num a, .num b =>
    if b = 0 then (if a = 0 then .nan else if 0 < a then .inf else .ninf)
    else .num (a / b)

/-- mathjs `pow` on numbers: exact for integer exponents (with `0 ^ -n`
overflowing to `Infinity`), the collaborator approximation for fractional
exponents on a non-negative base, and a `Complex` for a negative base with
a fractional exponent. -/
def mPow (o : EvalOracle) : MVal → MVal → MVal
  | .nan, _ => .nan
  | _, .nan => .nan
  | .cplx, _ => .cplx
  | _, .cplx => .cplx
  | .num a, .num b =>
    if b.den = 1 then
      if a = 0 ∧ b.num < 0 then .inf else .num (a ^ b.num)
    else if a < 0 then .cplx
    else if a = 0 then .num 0
    else .num (o.powQ a b)
  | .num a, .inf => if a = 1 ∨ a = -1 then .nan else if 1 < |a| then .inf else .num 0
  | .num a, .ninf => if a = 1 ∨ a = -1 then .nan else if 1 < |a| then .num 0 else .inf
  | .inf, .num b => if b = 0 then .num 1 else if 0 < b then .inf else .num 0
  | .ninf, .num b =>
    if b = 0 then .num 1
    else if 0 < b then (if b.den = 1 ∧ b.num % 2 ≠ 0 then .ninf else .inf)
    else .num 0
  | .inf, .inf => .inf
  | .inf, .ninf => .num 0
  | .ninf, .inf => .inf
  | .ninf, .ninf => .num 0

def mSqrt (o : EvalOracle) : MVal → MVal
  | .num q => if q < 0 then .cplx else .num (o.sqrtQ q)
  | .inf => .inf
  | .ninf => .cplx
  | .nan => .nan
  | .cplx => .cplx

/-- The character `√` (U+221A). -/
def sqrtCh : Char := Char.ofNat 8730

/-- Scan a `\d+(?:\.\d+)?` numeral at the head of `l`: the consumed
characters and the remainder. -/
def numLit (l : List Char) : Option (List Char × List Char) :=
  let ds := l.takeWhile isDig
  if ds = [] then none
  else
    let rest := l.dropWhile isDig
    match rest with
    | '.' :: r2 =>
      let fs := r2.takeWhile isDig
      if fs = [] then some (ds, rest)
      else some (ds ++ '.' :: fs, r2.dropWhile isDig)
    | _ => some (ds, rest)

/-- One pass of `String.prototype.replace` with a global regex:
`matcher prev suffix` yields the replacement text and the number of
characters (≥ 1) the match consumes, `prev` being the original character
just before the position (for `\b` assertions); scanning resumes after
each match. The fuel is the string length plus one, enough for the
one-character steps the scan takes. -/
def scanReplace (matcher : Option Char → List Char → Option (List Char × ℕ)) :
    ℕ → Option Char → List Char → List Char
  | 0, _, l => l
  | _ + 1, _, [] => []
  | fuel + 1, prev, c :: cs =>
    match matcher prev (c :: cs) with
    | some (rep, k) =>
      let consumed := (c :: cs).take k
      rep ++ scanReplace matcher fuel (match consumed.getLast? with
        | some d => some d
        | none => prev) ((c :: cs).drop k)
    | none => c :: scanReplace matcher fuel (some c) cs

def runReplace (matcher : Option Char → List Char → Option (List Char × ℕ))
    (l : List Char) : List Char :=
  scanReplace matcher (l.length + 1) none l

/-- `.replace(/√(\d+(?:\.\d+)?)/g, 'sqrt($1)')`. -/
def matchR1 (_ : Option Char) : List Char → Option (List Char × ℕ)
  | [] => none
  | c :: rest =>
    if c = sqrtCh then
      match numLit rest with
      | some (ds, _) => some ("sqrt(".toList ++ ds ++ [')'], 1 + ds.length)
      | none => none
    else none

/-- `.replace(/√\(([^)]+)\)/g, 'sqrt($1)')`. -/
def matchR2 (_ : Option Char) : List Char → Option (List Char × ℕ)
  | [] => none
  | c :: rest =>
    if c = sqrtCh then
      match rest with
      | '(' :: r2 =>
        let inner := r2.takeWhile (fun d => d ≠ ')')
        if inner = [] then none
        else
          match r2.dropWhile (fun d => d ≠ ')') with
          | ')' :: _ => some ("sqrt(".toList ++ inner ++ [')'], 2 + inner.length + 1)
          | _ => none
      | _ => none
    else none

/-- The tail test shared by the `N sqrt M` rewrite: a literal `sqrt`
followed by a numeral. -/
def sqrtTail (lead : List Char) (leadLen : ℕ) (tail : List Char) :
    Option (List Char × ℕ) :=
  if startsWithL "sqrt".toList tail then
    match numLit (tail.drop 4) with
    | some (ds, _) =>
      some (lead ++ "*sqrt(".toList ++ ds ++ [')'], leadLen + 4 + ds.length)
    | none => none
  else none

/-- `.replace(/(\d+(?:\.\d+)?)sqrt(\d+(?:\.\d+)?)/g, '$1*sqrt($2)')`
(e.g. `32sqrt22 → 32*sqrt(22)`). The optional fraction is tried greedily;
backing it off can never help because the rewound position then holds `.`
or a digit where the literal `s` of `sqrt` is required. -/
def matchR3 (_ : Option Char) (l : List Char) : Option (List Char × ℕ) :=
  let ds := l.takeWhile isDig
  if ds = [] then none
  else
    let rest := l.dropWhile isDig
    match rest with
    | c :: r2 =>
      if c = '.' then
        let fs := r2.takeWhile isDig
        if fs = [] then sqrtTail ds ds.length rest
        else sqrtTail (ds ++ '.' :: fs) (ds.length + 1 + fs.length) (r2.dropWhile isDig)
      else sqrtTail ds ds.length rest
    | [] => sqrtTail ds ds.length rest

/-- `.replace(/\bsqrt(\d+(?:\.\d+)?)/g, 'sqrt($1)')` (e.g.
`sqrt10 → sqrt(10)`); `s` is a word character, so the boundary holds
exactly when the previous character is absent or a non-word character. -/
def matchR4 (prev : Option Char) (l : List Char) : Option (List Char × ℕ) :=
  let boundary : Bool :=
    match prev with
    | none => true
    | some p => ¬ isWordCh p
  if boundary ∧ startsWithL "sqrt".toList l then
    match numLit (l.drop 4) with
    | some (ds, _) => some ("sqrt(".toList ++ ds ++ [')'], 4 + ds.length)
    | none => none
  else none

/-- The four chained rewrites of `parseAnswerToNumber` (answerUtils.js
lines 10-14), in source order. -/
def rewriteAnswerExpr (l : List Char) : List Char :=
  runReplace matchR4 (runReplace matchR3 (runReplace matchR2 (runReplace matchR1 l)))

/-! The collaborator expression evaluator: tokens, recursive-descent
parsing (fuelled — the fuel in `runEval` always suffices), and evaluation
over `MVal`. -/

inductive Tok where
  | lit (q : ℚ)
  | ident (s : List Char)
  | plus
  | minus
  | star
  | slash
  | caret
  | lp
  | rp
  deriving DecidableEq, Repr

def isLetterCh (c : Char) : Bool := ('a' ≤ c ∧ c ≤ 'z') ∨ ('A' ≤ c ∧ c ≤ 'Z')

/-- `10 ^ n` in `ℚ`, kept as plain multiplication so that concrete runs
reduce. -/
def pow10q : ℕ → ℚ
  | 0 => 1
  | n + 1 => 10 * pow10q n

/-- Lex one numeric literal `\d+(\.\d*)?([eE][+-]?\d+)?` or `.\d+...`
into its exact rational value. -/
def lexNumber (l : List Char) : Option (ℚ × List Char) :=
  let ds := l.takeWhile isDig
  let rest := l.dropWhile isDig
  let core : Option (ℚ × List Char) :=
    match ds with
    | [] =>
      match rest with
      | '.' :: r =>
        let fs := r.takeWhile isDig
        if fs = [] then none
        else some ((digitCharsVal fs : ℚ) / pow10q fs.length, r.dropWhile isDig)
      | _ => none
    | _ :: _ =>
      match rest with
      | '.' :: r =>
        let fs := r.takeWhile isDig
        some ((digitCharsVal ds : ℚ) + (digitCharsVal fs : ℚ) / pow10q fs.length,
          r.dropWhile isDig)
      | _ => some ((digitCharsVal ds : ℚ), rest)
  match core with
  | none => none
  | some (v, after) =>
    match after with
    | e :: r =>
      if e = 'e' ∨ e = 'E' then
        match r with
        | '+' :: r2 =>
          let es := r2.takeWhile isDig
          if es = [] then some (v, after)
          else some (v * pow10q (digitCharsVal es), r2.dropWhile isDig)
        | '-' :: r2 =>
          let es := r2.takeWhile isDig
          if es = [] then some (v, after)
          else some (v / pow10q (digitCharsVal es), r2.dropWhile isDig)
        | _ =>
          let es := r.takeWhile isDig
          if es = [] then some (v, after)
          else some (v * pow10q (digitCharsVal es), r.dropWhile isDig)
      else some (v, after)
    | [] => some (v, after)

/-- Tokenize; `none` is a lexical error (evaluate would throw). -/
def tokenize : ℕ → List Char → Option (List Tok)
  | 0, _ => none
  | _ + 1, [] => some []
  | fuel + 1, c :: cs =>
    if isWs c then tokenize fuel cs
    else if c = '+' then (tokenize fuel cs).map (Tok.plus :: ·)
    else if c = '-' then (tokenize fuel cs).map (Tok.minus :: ·)
    else if c = '*' then (tokenize fuel cs).map (Tok.star :: ·)
    else if c = '/' then (tokenize fuel cs).map (Tok.slash :: ·)
    else if c = '^' then (tokenize fuel cs).map (Tok.caret :: ·)
    else if c = '(' then (tokenize fuel cs).map (Tok.lp :: ·)
    else if c = ')' then (tokenize fuel cs).map (Tok.rp :: ·)
    else if isDig c ∨ c = '.' then
      match lexNumber (c :: cs) with
      | some (v, rest) => (tokenize fuel rest).map (Tok.lit v :: ·)
      | none => none
    else if isLetterCh c then
      let id := (c :: cs).takeWhile isLetterCh
      (tokenize fuel ((c :: cs).dropWhile isLetterCh)).map (Tok.ident id :: ·)
    else none

inductive AExp where
  | lit (q : ℚ)
  | add (a b : AExp)
  | sub (a b : AExp)
  | mul (a b : AExp)
  | divE (a b : AExp)
  | powE (a b : AExp)
  | neg (a : AExp)
  | sqrtE (a : AExp)
  deriving Repr

mutual

/-- Additive level (`a + b - c`, left associative). -/
def parseE : ℕ → List Tok → Option (AExp × List Tok)
  | 0, _ => none
  | fuel + 1, ts =>
    match parseT fuel ts with
    | some (a, r) => parseESfx fuel a r
    | none => none

def parseESfx : ℕ → AExp → List Tok → Option (AExp × List Tok)
  | 0, _, _ => none
  | fuel + 1, a, Tok.plus :: r =>
    match parseT fuel r with
    | some (b, r2) => parseESfx fuel (AExp.add a b) r2
    | none => none
  | fuel + 1, a, Tok.minus :: r =>
    match parseT fuel r with
    | some (b, r2) => parseESfx fuel (AExp.sub a b) r2
    | none => none
  | _ + 1, a, r => some (a, r)

/-- Multiplicative level (`a * b / c`, left associative). -/
def parseT : ℕ → List Tok → Option (AExp × List Tok)
  | 0, _ => none
  | fuel + 1, ts =>
    match parseU fuel ts with
    | some (a, r) => parseTSfx fuel a r
    | none => none

def parseTSfx : ℕ → AExp → List Tok → Option (AExp × List Tok)
  | 0, _, _ => none
  | fuel + 1, a, Tok.star :: r =>
    match parseU fuel r with
    | some (b, r2) => parseTSfx fuel (AExp.mul a b) r2
    | none => none
  | fuel + 1, a, Tok.slash :: r =>
    match parseU fuel r with
    | some (b, r2) => parseTSfx fuel (AExp.divE a b) r2
    | none => none
  | _ + 1, a, r => some (a, r)

/-- Unary `+`/`-`; exponentiation binds tighter (`-2^2 = -(2^2)`). -/
def parseU : ℕ → List Tok → Option (AExp × List Tok)
  | 0, _ => none
  | fuel + 1, Tok.minus :: r =>
    match parseU fuel r with
    | some (a, r2) => some (AExp.neg a, r2)
    | none => none
  | fuel + 1, Tok.plus :: r => parseU fuel r
  | fuel + 1, ts => parseP fuel ts

/-- Power level, right associative, with a unary right operand (`2^-3`). -/
def parseP : ℕ → List Tok → Option (AExp × List Tok)
  | 0, _ => none
  | fuel + 1, ts =>
    match parseAtom fuel ts with
    | some (a, Tok.caret :: r) =>
      match parseU fuel r with
      | some (b, r2) => some (AExp.powE a b, r2)
      | none => none
    | some (a, r) => some (a, r)
    | none => none

/-- Atoms: literals, parenthesised expressions, `sqrt(...)` calls. Any
other identifier is rejected — mathjs raises an undefined-symbol error on
evaluation of such an expression, which ends in the same `null`. -/
def parseAtom : ℕ → List Tok → Option (AExp × List Tok)
  | 0, _ => none
  | _ + 1, Tok.lit q :: r => some (AExp.lit q, r)
  | fuel + 1, Tok.lp :: r =>
    match parseE fuel r with
    | some (a, Tok.rp :: r2) => some (a, r2)
    | _ => none
  | fuel + 1, Tok.ident s :: r =>
    if s = "sqrt".toList then
      match r with
      | Tok.lp :: r2 =>
        match parseE fuel r2 with
        | some (a, Tok.rp :: r3) => some (AExp.sqrtE a, r3)
        | _ => none
      | _ => none
    else none
  | _ + 1, _ => none

end

def evalA (o : EvalOracle) : AExp → MVal
  | .lit q => .num q
  | .add a b => mAdd (evalA o a) (evalA o b)
  | .sub a b => mSub (evalA o a) (evalA o b)
  | .mul a b => mMul (evalA o a) (evalA o b)
  | .divE a b => mDiv (evalA o a) (evalA o b)
  | .powE a b => mPow o (evalA o a) (evalA o b)
  | .neg a => mNeg (evalA o a)
  | .sqrtE a => mSqrt o (evalA o a)

/-- The collaborator `evaluate(expr)`: `none` when mathjs throws (lexical
error, syntax error, trailing garbage, unknown symbol). -/
def runEval (o : EvalOracle) (l : List Char) : Option MVal :=
  match tokenize (l.length + 1) l with
  | none => none
  | some toks =>
    match parseE (5 * toks.length + 10) toks with
    | some (e, []) => some (evalA o e)
    | _ => none

/-- `parseAnswerToNumber` (answerUtils.js lines 6-21). Returns the
evaluated value when it is a plain number that is not `NaN` (the
`typeof val === 'number' && !Number.isNaN(val)` test — `Infinity` passes
it), `none` otherwise. -/
def parseAnswerToNumber (o : EvalOracle) (input : String) : Option MVal :=
  if input = "" then none
  else
    let s := jsTrim input.toList
    if s = [] then none
    else
      match runEval o (rewriteAnswerExpr s) with
      | none => none
      | some v => if v = .nan ∨ v = .cplx then none else some v

/-! Decimal rendering of a finite value, for the idempotence claim:
`String(v)` of a finite double prints the (shortest) decimal numeral
denoting it exactly; every double is a dyadic rational, so its denominator
divides a power of ten. -/

/-- The smallest `k` with `d ∣ 10 ^ k`, when one exists (it is at most `d`). -/
def decScale (d : ℕ) : Option ℕ := (List.range (d + 1)).find? (fun k => decide (d ∣ Nat.pow 10 k))

def digitsToChars (l : List ℕ) : List Char := l.map (fun d => Char.ofNat (48 + d))

def padZeros (k : ℕ) (l : List ℕ) : List ℕ := List.replicate (k - l.length) 0 ++ l

/-- The decimal numeral denoting a finite-decimal rational exactly
(`String(v)` for the values in question), `""` when `q` has no finite
decimal expansion — which no machine double has. -/
def renderDecimal (q : ℚ) : String :=
  match decScale q.den with
  | none => ""
  | some k =>
    let m := q.num.natAbs * Nat.pow 10 k / q.den
    let sign : List Char := if q.num < 0 then ['-'] else []
    let frac : List Char :=
      if k = 0 then [] else '.' :: digitsToChars (padZeros k (natDigitsBE (m % Nat.pow 10 k)))
    ⟨sign ++ natToChars (m / Nat.pow 10 k) ++ frac⟩

/-! ### ProblemSegmenter (`splitIntoProblems`, pdfImport.js lines 407-444)

Normalize line endings, rewrite `Problem N.` headers to `N.`, scan for
`^\s*(\d+)\s*[\.\)\:]\s*` markers (multiline flag: a match site is the
start of the text or just after a newline; `\s` may span newlines), cut
the text at the marker starting positions, drop blocks of at most 10
characters, strip a trailing copyright footer from the final block, and
re-number the surviving blocks sequentially from 1. -/

structure ProblemBlock where
  number : ℕ
  raw : List Char
  deriving DecidableEq, Repr

/-- `text.replace(/\r\n|\r|\f/g, '\n')`. -/
def normalizeNl : List Char → List Char
  | [] => []
  | '\r' :: '\n' :: rest => '\n' :: normalizeNl rest
  | '\r' :: rest => '\n' :: normalizeNl rest
  | c :: rest => (if c = Char.ofNat 12 then '\n' else c) :: normalizeNl rest

/-- `.replace(/(?:^|\n)\s*[Pp]roblem\s+(\d+)([\.\)\:])\s*/g, '\n$1$2 ')`:
the `^` alternative applies at position 0 (`prev = none`), the `\n`
alternative consumes a newline. -/
def matchProblemHdr (prev : Option Char) (l : List Char) : Option (List Char × ℕ) :=
  match prev with
  | none => matchProblemHdrCore l 0
  | some _ =>
    match l with
    | '\n' :: rest => matchProblemHdrCore rest 1
    | _ => none
where
  matchProblemHdrCore (l2 : List Char) (extra : ℕ) : Option (List Char × ℕ) :=
    let ws1 := l2.takeWhile isWs
    match l2.dropWhile isWs with
    | p :: rest1 =>
      if p = 'P' ∨ p = 'p' then
        if startsWithL "roblem".toList rest1 then
          let rest2 := rest1.drop 6
          let ws2 := rest2.takeWhile isWs
          if ws2 = [] then none
          else
            let rest3 := rest2.dropWhile isWs
            let ds := rest3.takeWhile isDig
            if ds = [] then none
            else
              match rest3.dropWhile isDig with
              | d :: rest4 =>
                if d = '.' ∨ d = ')' ∨ d = ':' then
                  some ('\n' :: ds ++ [d, ' '],
                    extra + ws1.length + 1 + 6 + ws2.length + ds.length + 1
                      + (rest4.takeWhile isWs).length)
                else none
              | [] => none
        else none
      else none
    | [] => none

/-- Attempt of `\s*(\d+)\s*[\.\)\:]\s*` at the current position:
the parsed number and the match length. -/
def mainMatchAt (l : List Char) : Option (ℕ × ℕ) :=
  let ws1 := l.takeWhile isWs
  let r1 := l.dropWhile isWs
  let ds := r1.takeWhile isDig
  if ds = [] then none
  else
    let r2 := r1.dropWhile isDig
    let ws2 := r2.takeWhile isWs
    match r2.dropWhile isWs with
    | d :: r4 =>
      if d = '.' ∨ d = ')' ∨ d = ':' then
        some (parseIntL ds,
          ws1.length + ds.length + ws2.length + 1 + (r4.takeWhile isWs).length)
      else none
    | [] => none

/-- The `regex.exec` loop: all matches of the marker pattern, as
`(index, lastIndex, parsed number)`, scanning left to right and resuming
after each match; `atLS` says whether the current position is a line
start (position 0 or just after `\n`). -/
def mainScan : ℕ → ℕ → Bool → List Char → List (ℕ × ℕ × ℕ)
  | 0, _, _, _ => []
  | _ + 1, _, _, [] => []
  | fuel + 1, pos, atLS, c :: cs =>
    if atLS then
      match mainMatchAt (c :: cs) with
      | some (num, len) =>
        (pos, pos + len, num) ::
          mainScan fuel (pos + len)
            (((c :: cs).take len).getLast? = some '\n') ((c :: cs).drop len)
      | none => mainScan fuel (pos + 1) (c = '\n') cs
    else mainScan fuel (pos + 1) (c = '\n') cs

/-- Is the suffix a match of `/Copyright\s+.*?\.\s*All rights reserved.*$/is`
starting here?  (`i`: case-insensitive; `s`: the dots span newlines; the
match always extends to the end of the string.) -/
def footerAt (t : List Char) : Bool :=
  startsWithL "copyright".toList (lowerL t)
    && (match t.drop 9 with
        | [] => false
        | c :: _ => isWs c)
    && dotAllRights (t.drop 9)
where
  dotAllRights : List Char → Bool
    | [] => false
    | c :: cs =>
      (c = '.' && startsWithL "all rights reserved".toList (lowerL (cs.dropWhile isWs)))
        || dotAllRights cs

/-- `raw.replace(footer, '')`: delete from the first footer match on. -/
def stripFooter (l : List Char) : List Char := go l.length 0 l
where
  go : ℕ → ℕ → List Char → List Char
    | _, _, [] => l
    | 0, _, _ => l
    | fuel + 1, i, c :: cs => if footerAt (c :: cs) then l.take i else go fuel (i + 1) cs

/-- The block-building loop of `splitIntoProblems`, fed the match list;
state `(lastIndex, lastNum, seq)` as in the source. -/
def buildBlocks (norm : List Char) : List (ℕ × ℕ × ℕ) → ℕ → ℕ → ℕ → List ProblemBlock
  | [], lastIndex, lastNum, seq =>
    if lastNum > 0 then
      let raw := jsTrim (norm.drop lastIndex)
      let cleaned := jsTrim (stripFooter raw)
      if cleaned.length > 10 then [⟨seq + 1, cleaned⟩] else []
    else []
  | (s, _, num) :: ms, lastIndex, lastNum, seq =>
    if lastNum > 0 then
      let raw := jsTrim ((norm.drop lastIndex).take (s - lastIndex))
      if raw.length > 10 then
        ⟨seq + 1, raw⟩ :: buildBlocks norm ms s num (seq + 1)
      else buildBlocks norm ms s num seq
    else buildBlocks norm ms s num seq

/-- The normalized-and-rewritten text `splitIntoProblems` scans. -/
def preprocessForSplit (text : String) : List Char :=
  runReplace matchProblemHdr (normalizeNl text.toList)

/-- All marker matches found in a document. -/
def problemMarkers (text : String) : List (ℕ × ℕ × ℕ) :=
  let n := preprocessForSplit text
  mainScan (n.length + 1) 0 true n

/-- `splitIntoProblems` (pdfImport.js lines 407-444). -/
def splitIntoProblems (text : String) : List ProblemBlock :=
  if text = "" then []
  else buildBlocks (preprocessForSplit text) (problemMarkers text) 0 0 0

/-! ### FidelityValidator (`stripLatexForCompare`, `extractCritical`,
`validateFidelity`, pdfImport.js lines 449-510) -/

/-- The literal brace characters (`[{}]` in the LaTeX-stripping rules). -/
def lbrace : Char := Char.ofNat 123

def rbrace : Char := Char.ofNat 125

/-- `.replace(/\$\$[^$]*\$\$|\$[^$]*\$/g, ' ')`; when a `$$…$$` body never
closes with `$$`, the second alternative still matches the opening `$$`
itself as an empty `$…$` pair. -/
def matchDollar (_ : Option Char) : List Char → Option (List Char × ℕ)
  | '$' :: '$' :: t =>
    let mid := t.takeWhile (fun c => c ≠ '$')
    match t.drop mid.length with
    | '$' :: '$' :: _ => some ([' '], 2 + mid.length + 2)
    | _ => some ([' '], 2)
  | '$' :: t =>
    let mid := t.takeWhile (fun c => c ≠ '$')
    match t.drop mid.length with
    | '$' :: _ => some ([' '], 1 + mid.length + 1)
    | _ => none
  | _ => none

/-- `.replace(/\\frac\{([^}]*)\}\{([^}]*)\}/g, '$1/$2')`. -/
def matchFrac (_ : Option Char) (l : List Char) : Option (List Char × ℕ) :=
  if startsWithL ('\\' :: "frac".toList ++ [lbrace]) l then
    let t1 := l.drop 6
    let a := t1.takeWhile (fun c => c ≠ rbrace)
    match t1.drop a.length with
    | _ :: c2 :: t2 =>
      if c2 = lbrace then
        let b := t2.takeWhile (fun c => c ≠ rbrace)
        match t2.drop b.length with
        | _ :: _ => some (a ++ '/' :: b, 6 + a.length + 2 + b.length + 1)
        | [] => none
      else none
    | _ => none
  else none

/-- `.replace(/\\sqrt\{([^}]*)\}/g, 'sqrt($1)')`. -/
def matchSqrtCmd (_ : Option Char) (l : List Char) : Option (List Char × ℕ) :=
  if startsWithL ('\\' :: "sqrt".toList ++ [lbrace]) l then
    let t1 := l.drop 6
    let a := t1.takeWhile (fun c => c ≠ rbrace)
    match t1.drop a.length with
    | _ :: _ => some ("sqrt(".toList ++ a ++ [')'], 6 + a.length + 1)
    | [] => none
  else none

/-- `.replace(/\\overline\{([^}]*)\}/g, '$1')`. -/
def matchOverline (_ : Option Char) (l : List Char) : Option (List Char × ℕ) :=
  if startsWithL ('\\' :: "overline".toList ++ [lbrace]) l then
    let t1 := l.drop 10
    let a := t1.takeWhile (fun c => c ≠ rbrace)
    match t1.drop a.length with
    | _ :: _ => some (a, 10 + a.length + 1)
    | [] => none
  else none

/-- `.replace(/\\[a-zA-Z]+/g, ' ')`. -/
def matchCmd (_ : Option Char) : List Char → Option (List Char × ℕ)
  | '\\' :: rest =>
    let ls := rest.takeWhile isLetterCh
    if ls = [] then none else some ([' '], 1 + ls.length)
  | _ => none

/-- `.replace(/[{}]/g, ' ')`. -/
def matchBraceCh (_ : Option Char) : List Char → Option (List Char × ℕ)
  | c :: _ => if c = lbrace ∨ c = rbrace then some ([' '], 1) else none
  | [] => none

/-- `stripLatexForCompare` (pdfImport.js lines 449-462); the `!s` guard
returns the empty string, which the pipeline also does. -/
def stripLatexForCompare (s : List Char) : List Char :=
  jsTrim (lowerL (collapseWs (runReplace matchBraceCh (runReplace matchCmd
    (runReplace matchOverline (runReplace matchSqrtCmd
      (runReplace matchFrac (runReplace matchDollar s))))))))

/-- All matches of `/\d+(?:\.\d+)?/g`, scanning left to right. -/
def numScan : ℕ → List Char → List (List Char)
  | 0, _ => []
  | _ + 1, [] => []
  | fuel + 1, c :: cs =>
    if isDig c then
      let ds := (c :: cs).takeWhile isDig
      match (c :: cs).drop ds.length with
      | '.' :: r2 =>
        let fs := r2.takeWhile isDig
        if fs = [] then ds :: numScan fuel ((c :: cs).drop ds.length)
        else (ds ++ '.' :: fs) :: numScan fuel (r2.drop fs.length)
      | rest => ds :: numScan fuel rest
    else numScan fuel cs

/-- `Set` insertion over a list: first occurrences, in order. -/
def dedupeL {α : Type} [DecidableEq α] : List α → List α
  | [] => []
  | x :: xs => x :: (dedupeL xs).filter (fun y => y ≠ x)

/-- All matches of `/Circle\s+([A-Z])/gi` (the `i` flag makes both the word
and the letter class case-insensitive), as full match strings. -/
def circleScan : ℕ → List Char → List (List Char)
  | 0, _ => []
  | _ + 1, [] => []
  | fuel + 1, c :: cs =>
    if lowerCh c = 'c' ∧ startsWithL "ircle".toList (lowerL (cs.take 5)) then
      let rest := cs.drop 5
      let ws := rest.takeWhile isWs
      if ws = [] then circleScan fuel cs
      else
        match rest.drop ws.length with
        | d :: rest2 =>
          if isLetterCh d then
            ((c :: cs.take 5) ++ ws ++ [d]) :: circleScan fuel rest2
          else circleScan fuel cs
        | [] => circleScan fuel cs
    else circleScan fuel cs

/-- Maximal runs of word characters, in order (`\b[a-z0-9]{2,}\b` matches a
run exactly when the whole run is lowercase-alphanumeric of length at least
2: a longer word-character run blocks the boundaries). -/
def wordRuns : ℕ → List Char → List (List Char)
  | 0, _ => []
  | _ + 1, [] => []
  | fuel + 1, c :: cs =>
    if isWordCh c then
      ((c :: cs).takeWhile isWordCh)
        :: wordRuns fuel ((c :: cs).drop ((c :: cs).takeWhile isWordCh).length)
    else wordRuns fuel cs

/-- Lowercase-alphanumeric character (`[a-z0-9]`). -/
def isLowerDig (c : Char) : Bool := ('a' ≤ c ∧ c ≤ 'z') ∨ isDig c

/-- The three critical-content sets of `extractCritical` (pdfImport.js
lines 467-475), as insertion-ordered duplicate-free lists. -/
structure Critical where
  numbers : List (List Char)
  circles : List (List Char)
  words : List (List Char)
  deriving DecidableEq, Repr

/-- `extractCritical` (pdfImport.js lines 467-475): numbers and words come
from the stripped text, circle labels from the raw text. -/
def extractCritical (text : List Char) : Critical :=
  let normalized := stripLatexForCompare text
  { numbers := dedupeL (numScan (normalized.length + 1) normalized)
    circles := dedupeL ((circleScan (text.length + 1) text).map
      (fun m => lowerL (collapseWs m)))
    words := dedupeL (((wordRuns (normalized.length + 1) normalized).filter
      (fun r => r.all isLowerDig ∧ 2 ≤ r.length)).filter (fun w => 2 ≤ w.length)) }

/-- `c.replace(pat, '')` for a plain-string pattern: delete the first
occurrence, if any. -/
def removeFirst (pat : List Char) : ℕ → List Char → List Char
  | _, [] => []
  | 0, l => l
  | fuel + 1, c :: cs =>
    if startsWithL pat (c :: cs) then (c :: cs).drop pat.length
    else c :: removeFirst pat fuel cs

/-- The circle label with its `circle ` prefix deleted and trimmed. -/
def circleLetter (c : List Char) : List Char :=
  jsTrim (removeFirst "circle ".toList c.length c)

/-- `Math.round` (half away from zero is half up in JavaScript for the
nonnegative ratios rounded here). -/
def jsRound (q : ℚ) : ℤ := ⌊q + 1 / 2⌋

/-! Spec-side statements of the three warning conditions of §4.7, for the
refinement theorem about `validateFidelity`. -/

/-- Some labeled entity of the source is absent (or renamed) among the
candidate's labels. -/
def circleMissing (src out : Critical) : Prop :=
  ∃ c ∈ src.circles, circleLetter c ∉ out.circles.map circleLetter

instance (src out : Critical) : Decidable (circleMissing src out) := by
  unfold circleMissing; infer_instance

/-- The ratio of source tokens of length at least 3 that also occur among
the candidate's tokens (1 when the source has none). -/
def overlapRatio (src out : Critical) : ℚ :=
  let srcWords := src.words.filter (fun w => 3 ≤ w.length)
  if srcWords.length > 0 then
    ((srcWords.filter (fun w => w ∈ out.words)).length : ℚ) / srcWords.length
  else 1

/-- More than 30% of the source's numeric literals occur neither among the
candidate's numeric literals nor verbatim inside the candidate's text. -/
def numbersMissingFrac (src out : Critical) (aiOutput : List Char) : Prop :=
  ((src.numbers.filter
      (fun n => n ∉ out.numbers ∧ ¬ containsL n aiOutput)).length : ℚ)
    > (src.numbers.length : ℚ) * (3 / 10)

instance (src out : Critical) (aiOutput : List Char) :
    Decidable (numbersMissingFrac src out aiOutput) := by
  unfold numbersMissingFrac; infer_instance

/-- The warning string pushed for a source circle label that the candidate
lacks: the first differing candidate label when one exists, else the
missing-label message. -/
def circleWarningMsg (problemNum : ℕ) (letter : List Char) :
    List (List Char) → List Char
  | w0 :: _ =>
    "Problem ".toList ++ natToChars problemNum
      ++ ": source has \"Circle ".toList ++ letter
      ++ "\" but output has \"Circle ".toList ++ w0 ++ [Char.ofNat 34]
  | [] =>
    "Problem ".toList ++ natToChars problemNum
      ++ ": source has \"Circle ".toList ++ letter
      ++ "\" but it's missing in output".toList

/-- `validateFidelity` (pdfImport.js lines 481-510): empty source or empty
candidate short-circuit to no warnings; then one warning per source circle
label that is missing or renamed, one when the length-3 word-overlap ratio
is below 0.6, one when the missing numeric literals exceed 30%. -/
def validateFidelity (sourceRaw aiOutput : List Char) (problemNum : ℕ) :
    List (List Char) :=
  if sourceRaw = [] ∨ aiOutput = [] then []
  else
    let src := extractCritical sourceRaw
    let out := extractCritical aiOutput
    let outCircles := out.circles.map circleLetter
    let circleWarnings := src.circles.filterMap (fun c =>
      if circleLetter c ∈ outCircles then none
      else some (circleWarningMsg problemNum (circleLetter c)
        (outCircles.filter (fun x => x ≠ circleLetter c))))
    let ratio : ℚ := overlapRatio src out
    let ratioWarnings :=
      if ratio < 3 / 5 then
        ["Problem ".toList ++ natToChars problemNum
          ++ ": low word overlap (".toList ++ natToChars (jsRound (ratio * 100)).toNat
          ++ "%) - possible paraphrase".toList]
      else []
    let srcNums := src.numbers.filter (fun n => 1 ≤ n.length)
    let missingNums := srcNums.filter
      (fun n => n ∉ out.numbers ∧ ¬ containsL n aiOutput)
    let numWarnings :=
      if ((missingNums.length : ℚ) > (srcNums.length : ℚ) * (3 / 10)) then
        ["Problem ".toList ++ natToChars problemNum
          ++ ": many numbers from source missing in output".toList]
      else []
    circleWarnings ++ ratioWarnings ++ numWarnings

/-! ### Orchestrator reconciliation and correction loop
(`processFullTextWithAI`, pdfImport.js lines 534-684)

The generative backend is a collaborator: its successive replies are an
oracle `resp : ℕ → AIResponse`, indexed by how many calls were made before.
A reply either fails to parse as JSON (with the parse error's message) or
yields a list of items with the fields the loop reads. -/

/-- One parsed item of the backend's JSON array.  `number` is `none` when
the field is absent or null (the `??` fallback); the string fields hold
`[]` for an absent or falsy value (the `||` fallbacks). -/
structure AIItem where
  number : Option ℕ
  questionLatex : List Char
  question : List Char
  topics : Option (List (List Char))
  topic : List Char
  answer : List Char
  deriving DecidableEq, Repr

/-- `item?.number ?? i + 1`. -/
def itemNum (i : ℕ) (item : AIItem) : ℕ := item.number.getD (i + 1)

/-- `answerMap[num] !== undefined ? String(answerMap[num]) : (item.answer || '')`. -/
def selectedAnswer (am : AnswerMap) (i : ℕ) (item : AIItem) : List Char :=
  match lookupAnswer am (itemNum i item) with
  | some a => a
  | none => item.answer

/-- The recorded message for an unparseable non-empty answer. -/
def invalidAnswerMsg (num : ℕ) (answer : List Char) : List Char :=
  "Invalid answer for problem ".toList ++ natToChars num
    ++ ": \"".toList ++ answer ++ [Char.ofNat 34]

/-- `.replace(/\\neq\b/g, '\\ne')`. -/
def matchNeq (_ : Option Char) (l : List Char) : Option (List Char × ℕ) :=
  if startsWithL ('\\' :: "neq".toList) l then
    match l.drop 4 with
    | [] => some ('\\' :: "ne".toList, 4)
    | c :: _ => if isWordCh c then none else some ('\\' :: "ne".toList, 4)
  else none

/-- One alternative of `(\b(?:cost|costs|spent)\s+)\\(\d+)` (case-insensitive
word, at least one whitespace, a backslash, digits); in the replacement
string `'$1\\$$2'` JavaScript reads `$$` as a literal dollar sign, so the
trailing `2` is the literal character `2`, not group 2. -/
def tryCostWord (w : List Char) (l : List Char) : Option (List Char × ℕ) :=
  if lowerL (l.take w.length) = w then
    let rest := l.drop w.length
    let ws := rest.takeWhile isWs
    if ws = [] then none
    else
      match rest.drop ws.length with
      | '\\' :: r2 =>
        let ds := r2.takeWhile isDig
        if ds = [] then none
        else some (l.take w.length ++ ws ++ ['\\', '$', '2'],
          w.length + ws.length + 1 + ds.length)
      | _ => none
  else none

/-- `.replace(/(\b(?:cost|costs|spent)\s+)\\(\d+)/gi, '$1\\$$2')`: the
alternatives are tried in the source's order, and the leading `\b` requires
a non-word character (or the start) before the match. -/
def matchCostFix (prev : Option Char) (l : List Char) : Option (List Char × ℕ) :=
  if (match prev with | none => true | some p => ¬ isWordCh p) then
    match tryCostWord "cost".toList l with
    | some r => some r
    | none =>
      match tryCostWord "costs".toList l with
      | some r => some r
      | none => tryCostWord "spent".toList l
  else none

/-- The two LaTeX fixes applied to each accepted question. -/
def fixQuestion (q : List Char) : List Char :=
  runReplace matchCostFix (runReplace matchNeq q)

/-- One entry of the returned `results` array. -/
structure ResultItem where
  number : ℕ
  question : List Char
  answer : MVal
  topics : List (List Char)
  source : List Char
  deriving DecidableEq, Repr

/-- The body of the per-item loop (pdfImport.js lines 631-657): the pair of
results pushed and errors pushed for the item at index `i`. -/
def itemContribution (o : EvalOracle) (am : AnswerMap) (i : ℕ) (item : AIItem) :
    List ResultItem × List (ℕ × List Char) :=
  let num := itemNum i item
  let answer := selectedAnswer am i item
  let answerNum := parseAnswerToNumber o (String.mk answer)
  if answerNum = none ∧ answer ≠ [] then
    ([], [(num, invalidAnswerMsg num answer)])
  else
    let topics := match item.topics with
      | some ts => ts
      | none => if item.topic ≠ [] then [item.topic] else ["Arithmetic".toList]
    let question := jsTrim (if item.questionLatex = [] then item.question
      else item.questionLatex)
    if question = [] then ([], [])
    else
      ([{ number := num
          question := fixQuestion question
          answer := answerNum.getD (MVal.num 0)
          topics := topics
          source := "Problem ".toList ++ natToChars num }], [])

/-- The item loop from index `i` on: concatenated pushed results and
errors, in iteration order. -/
def reconcileItems (o : EvalOracle) (am : AnswerMap) : ℕ → List AIItem →
    List ResultItem × List (ℕ × List Char)
  | _, [] => ([], [])
  | i, item :: rest =>
    let c := itemContribution o am i item
    let r := reconcileItems o am (i + 1) rest
    (c.1 ++ r.1, c.2 ++ r.2)

/-- One backend reply: a JSON parse failure (with the error message used in
the thrown wrapper) or the parsed item list. -/
inductive AIResponse where
  | malformed (msg : List Char)
  | items (items : List AIItem)

/-- The value `processFullTextWithAI` resolves with. -/
structure ProcOutcome where
  results : List ResultItem
  errors : List (ℕ × List Char)
  deriving DecidableEq

/-- The fidelity pass (pdfImport.js lines 664-671): warnings of
`validateFidelity` for each result paired positionally with a source block. -/
def fidelityFor (sps : List ProblemBlock) (rs : List ResultItem) :
    List (List Char) :=
  (rs.enum.map (fun p =>
    match sps[p.1]? with
    | some sp =>
      if sp.raw ≠ [] then validateFidelity sp.raw p.2.question p.2.number else []
    | none => [])).flatten

/-- `const MAX_CORRECTIONS = 1`. -/
def MAX_CORRECTIONS : ℕ := 1

/-- The count-mismatch error (pdfImport.js lines 658-663). -/
def countMismatchErr (sourceCount resultCount : ℕ) : List (ℕ × List Char) :=
  if sourceCount > resultCount then
    [(0, "Expected ".toList ++ natToChars sourceCount
      ++ " problems from source but AI returned ".toList
      ++ natToChars resultCount ++ ". Some problems may be missing.".toList)]
  else []

/-- The correction loop (pdfImport.js lines 619-681), with `remaining`
re-prompts left (`MAX_CORRECTIONS - correctionAttempt`), the current
backend reply, and the number of backend calls made so far; returns the
resolved or thrown outcome and the total number of backend calls. -/
def correctionGo (o : EvalOracle) (am : AnswerMap) (sps : List ProblemBlock)
    (resp : ℕ → AIResponse) :
    ℕ → AIResponse → ℕ → Except (List Char) ProcOutcome × ℕ
  | _, .malformed msg, calls =>
    (.error ("AI returned invalid JSON for batch. ".toList ++ msg), calls)
  | remaining, .items items, calls =>
    let rc := reconcileItems o am 0 items
    let batchErrors := rc.2 ++ countMismatchErr sps.length rc.1.length
    let fw := fidelityFor sps rc.1
    match remaining with
    | 0 => (.ok ⟨rc.1, batchErrors ++ fw.map (fun w => ((0 : ℕ), w))⟩, calls)
    | remaining + 1 =>
      if fw = [] then
        (.ok ⟨rc.1, batchErrors ++ fw.map (fun w => ((0 : ℕ), w))⟩, calls)
      else correctionGo o am sps resp remaining (resp calls) (calls + 1)

/-- `processFullTextWithAI` (pdfImport.js lines 612-684), with the backend
as an oracle over call indices: the initial extraction call is call `0`. -/
def processFullTextWithAI (o : EvalOracle) (am : AnswerMap) (text : String)
    (resp : ℕ → AIResponse) : Except (List Char) ProcOutcome × ℕ :=
  correctionGo o am (splitIntoProblems text) resp MAX_CORRECTIONS (resp 0) 1

/-! ### Extraction client retry policy (`callAI`, pdfImport.js lines 562-594)

The backend is an oracle `gen : ℕ → CallOutcome` over global call indices.
The embedding returns the settled value (thrown message or returned text),
the next call index (so the number of calls made), and the list of backoff
sleeps in milliseconds, in order. -/

/-- One `ai.models.generateContent` outcome: the response text, or the
thrown error's string form. -/
inductive CallOutcome where
  | ok (text : List Char)
  | fail (msg : List Char)

/-- `/NOT_FOUND|404|not found/i.test(errStr)`. -/
def is404 (s : List Char) : Bool :=
  containsL "not_found".toList (lowerL s) || containsL "404".toList s
    || containsL "not found".toList (lowerL s)

/-- A match of `rate.?limit` starting here?  The optional `.` matches any
character except the line terminators (`\n`, `\r`, U+2028, U+2029). -/
def rateLimitAt (l : List Char) : Bool :=
  startsWithL "ratelimit".toList l
    || (startsWithL "rate".toList l
        && match l.drop 4 with
           | c :: rest =>
             (c ≠ '\n' && c ≠ '\r' && c.toNat ≠ 8232 && c.toNat ≠ 8233)
               && startsWithL "limit".toList rest
           | [] => false)

def containsRateLimit : List Char → Bool
  | [] => false
  | c :: cs => rateLimitAt (c :: cs) || containsRateLimit cs

/-- `/RESOURCE_EXHAUSTED|quota|429|rate.?limit/i.test(errStr)`. -/
def is429 (s : List Char) : Bool :=
  containsL "resource_exhausted".toList (lowerL s)
    || containsL "quota".toList (lowerL s) || containsL "429".toList s
    || containsRateLimit (lowerL s)

/-- `/NOT_FOUND|404|RESOURCE_EXHAUSTED|quota|429/i.test(...)`: the
advance-to-next-model test (note: unlike `is404`/`is429` it accepts
neither `not found` nor `rate limit`). -/
def tryNextP (s : List Char) : Bool :=
  containsL "not_found".toList (lowerL s) || containsL "404".toList s
    || containsL "resource_exhausted".toList (lowerL s)
    || containsL "quota".toList (lowerL s) || containsL "429".toList s

/-- How one model's attempt loop ended: a response, a thrown error, or a
`break` with `lastErr` set (404, or 429 at the attempt cap). -/
inductive InnerRes where
  | success (out : List Char)
  | thrown (msg : List Char)
  | broke (lastErr : List Char)
  deriving DecidableEq, Repr

/-- The `for (let attempt = 0; attempt < 3; attempt++)` loop, by remaining
attempts (`attempt >= 2` is `remaining = 1` on entry, `remaining = 0` after
the decrement in the body's tail tests).  The `0` base case is never
reached from `remaining = 3`: with one attempt left every path breaks or
throws. -/
def attemptLoop (gen : ℕ → CallOutcome) : ℕ → ℕ → InnerRes × ℕ × List ℕ
  | 0, calls => (.broke [], calls, [])
  | remaining + 1, calls =>
    match gen calls with
    | .ok t =>
      let tt := jsTrim t
      (.success (if tt = [] then "[]".toList else tt), calls + 1, [])
    | .fail msg =>
      if is404 msg then (.broke msg, calls + 1, [])
      else if is429 msg ∧ remaining = 0 then (.broke msg, calls + 1, [])
      else
        let ms := if is429 msg then 20000 else 2000
        if remaining = 0 then (.thrown msg, calls + 1, [ms])
        else
          let r := attemptLoop gen remaining (calls + 1)
          (r.1, r.2.1, ms :: r.2.2)

/-- The `for (const model of models)` loop over the remaining models; after
the last model a pending `lastErr` is thrown.  The `0` base case is never
reached from `5`. -/
def modelLoop (gen : ℕ → CallOutcome) :
    ℕ → ℕ → Except (List Char) (List Char) × ℕ × List ℕ
  | 0, calls => (.error [], calls, [])
  | m + 1, calls =>
    match attemptLoop gen 3 calls with
    | (.success out, calls2, sl) => (.ok out, calls2, sl)
    | (.thrown msg, calls2, sl) => (.error msg, calls2, sl)
    | (.broke msg, calls2, sl) =>
      if tryNextP msg then
        if m = 0 then (.error msg, calls2, sl)
        else
          let r := modelLoop gen m calls2
          (r.1, r.2.1, sl ++ r.2.2)
      else (.error msg, calls2, sl)

/-- `callAI` (pdfImport.js lines 562-594): five models, three attempts
each. -/
def callAI (gen : ℕ → CallOutcome) : Except (List Char) (List Char) × ℕ × List ℕ :=
  modelLoop gen 5 0

/-! ### Import orchestrator (`extractSourceName`, `importPdfToDatabase`,
pdfImport.js lines 376-400 and 733-835)

The PDF text extraction is a collaborator, so the extracted text is a
parameter; the database client is assumed to answer every query (the
claim under study concerns the validation checks and whether the
generative backend is reached, none of which depend on the database's
answers). -/

/-- Is the line exactly (case-insensitively) one of the skip words, or
`\d+-\d+`?  (The regex is anchored on both sides.) -/
def digitsDashDigits (l : List Char) : Bool :=
  let ds := l.takeWhile isDig
  ds ≠ [] &&
    (match l.drop ds.length with
     | '-' :: rest =>
       let ds2 := rest.takeWhile isDig
       ds2 ≠ [] && rest.drop ds2.length = []
     | _ => false)

def skipLine (l : List Char) : Bool :=
  let low := lowerL l
  low = "honor".toList || low = "i pledge".toList || low = "do not".toList
    || low = "this section".toList || low = "signature".toList
    || low = "printed".toList || low = "total correct".toList
    || low = "latex".toList || low = "test-solved".toList
    || low = "founding".toList || low = "copyright".toList || digitsDashDigits l

/-- `/^\d{4}\s*$/`. -/
def isYearLine (l : List Char) : Bool :=
  (l.takeWhile isDig).length = 4 && (l.drop 4).all isWs

/-- `/^(Sprint|Target|Team|Countdown)\s/i`. -/
def isRoundLine (l : List Char) : Bool :=
  ["sprint".toList, "target".toList, "team".toList, "countdown".toList].any
    (fun w => startsWithL w (lowerL l)
      && match l.drop w.length with
         | c :: _ => isWs c
         | [] => false)

/-- `/^Problems\s+\d/i`. -/
def isProblemsLine (l : List Char) : Bool :=
  startsWithL "problems".toList (lowerL l)
    && (let rest := l.drop 8
        let ws := rest.takeWhile isWs
        ws ≠ []
          && match rest.drop ws.length with
             | c :: _ => isDig c
             | [] => false)

/-- `/^\d+\./`. -/
def startsNumDot (l : List Char) : Bool :=
  (l.takeWhile isDig) ≠ []
    && match l.drop (l.takeWhile isDig).length with
       | '.' :: _ => true
       | _ => false

/-- One iteration of the header loop, on the state `(year, title, round)`. -/
def esnStep (st : List Char × List Char × List Char) (line : List Char) :
    List Char × List Char × List Char :=
  if skipLine line ∨ line.length < 3 then st
  else if isYearLine line then (jsTrim line, st.2.1, st.2.2)
  else if isRoundLine line then (st.1, st.2.1, line)
  else
    let round2 := if isProblemsLine line ∧ st.2.2 = [] then line else st.2.2
    let title2 :=
      if 10 ≤ line.length ∧ ¬ startsNumDot line ∧ st.2.1 = [] then
        jsTrim (collapseWs line)
      else st.2.1
    (st.1, title2, round2)

def joinSep (sep : List Char) : List (List Char) → List Char
  | [] => []
  | [x] => x
  | x :: y :: xs => x ++ sep ++ joinSep sep (y :: xs)

/-- `extractSourceName` (pdfImport.js lines 376-400). -/
def extractSourceName (text : List Char) : List Char :=
  let lines := ((splitLinesL (text.take 700)).map jsTrim).filter (fun s => s ≠ [])
  let st := lines.foldl esnStep ([], [], [])
  let parts := ([st.1, st.2.1, st.2.2].filter (fun s => s ≠ [])).map jsTrim
  if parts = [] then "Imported from PDF".toList else joinSep " - ".toList parts

/-- A match of `\n\d{4}\s*\n\s*Mock` (the `\s*` before the second newline
may absorb whitespace, so any newline inside the leading whitespace run
followed by `\s*Mock` matches). -/
def mockSplitOk : List Char → Bool
  | [] => false
  | c :: cs =>
    if c = '\n' ∧ startsWithL "mock".toList (lowerL (cs.dropWhile isWs)) then true
    else if isWs c then mockSplitOk cs
    else false

def mockAt : List Char → Bool
  | '\n' :: rest =>
    (rest.takeWhile isDig).length = 4 && mockSplitOk (rest.drop 4)
  | _ => false

/-- One alternative of the next-section regex matches here? -/
def sectionAt (l : List Char) : Bool :=
  startsWithL "target round".toList (lowerL (l.take 12))
    || startsWithL "countdown round".toList (lowerL (l.take 15))
    || startsWithL "team round".toList (lowerL (l.take 10))
    || mockAt l

/-- `text.search(nextSection)`: index of the first match, if any. -/
def searchSection (l : List Char) : Option ℕ := go 0 l
where
  go : ℕ → List Char → Option ℕ
    | _, [] => none
    | i, c :: cs => if sectionAt (c :: cs) then some i else go (i + 1) cs

/-- `if (idx > 500) text = text.slice(0, idx)` (a missing match is `-1`). -/
def sectionTrim (l : List Char) : List Char :=
  match searchSection l with
  | some idx => if idx > 500 then l.take idx else l
  | none => l

/-- The no-AI per-problem loop: how many problems import and which
per-problem messages are recorded (`processProblemNoAI` throws are caught
per problem). -/
def processNoAI (o : EvalOracle) (am : AnswerMap) : List ProblemBlock → ℕ × List (List Char)
  | [] => (0, [])
  | p :: ps =>
    let r := processNoAI o am ps
    match lookupAnswer am p.number with
    | none =>
      (r.1, ("Problem ".toList ++ natToChars p.number
        ++ ": Answer key required for problem ".toList ++ natToChars p.number
        ++ " (no-AI mode)".toList) :: r.2)
    | some a =>
      match parseAnswerToNumber o (String.mk a) with
      | none =>
        (r.1, ("Problem ".toList ++ natToChars p.number
          ++ ": Invalid answer for problem ".toList ++ natToChars p.number
          ++ ": \"".toList ++ a ++ [Char.ofNat 34]) :: r.2)
      | some _ => (r.1 + 1, r.2)

/-- The returned record (folder id elided: the database assigns it). -/
structure ImportResult where
  imported : ℕ
  folderName : List Char
  errors : List (List Char)
  deriving DecidableEq

/-- `importPdfToDatabase` (pdfImport.js lines 733-835), given the extracted
text: the thrown or returned outcome, and how many generative-backend
calls were made. -/
def importPdfToDatabase (o : EvalOracle) (resp : ℕ → AIResponse)
    (text : List Char) (answerKeyText : String) (useAI : Bool) :
    Except (List Char) ImportResult × ℕ :=
  let answerMap := parseAnswerKey answerKeyText
  if text = [] ∨ text.length < 100 then
    (.error ("Could not extract meaningful text from PDF. "
      ++ "The file may be scanned/image-based.").toList, 0)
  else
    let text2 := sectionTrim text
    let sourceName := extractSourceName text2
    let problems := splitIntoProblems (String.mk text2)
    if ¬useAI ∧ problems.length = 0 then
      (.error ("No problems found in PDF. "
        ++ "Expected format: \"1. Question text...\"").toList, 0)
    else if ¬useAI ∧ answerMap.length = 0 then
      (.error ("Answer key is required when not using AI. "
        ++ "Paste answers in format: 1. 42, 2. 3/4, etc.").toList, 0)
    else if useAI then
      match processFullTextWithAI o answerMap (String.mk text2) resp with
      | (.ok out, calls) =>
        (.ok ⟨out.results.length, sourceName, out.errors.map Prod.snd⟩, calls)
      | (.error msg, calls) => (.ok ⟨0, sourceName, [msg]⟩, calls)
    else
      let r := processNoAI o answerMap problems
      (.ok ⟨r.1, sourceName, r.2⟩, 0)

/-! ### Supporting lemmas -/

theorem lookupAnswer_upsert_self (m : List (ℕ × List Char)) (k : ℕ) (v : List Char) :
    lookupAnswer (upsertAnswer m k v) k = some v := by
  induction m with
  | nil => simp [upsertAnswer, lookupAnswer]
  | cons p rest ih =>
    obtain ⟨k', v'⟩ := p
    by_cases h : k' = k <;> simp [upsertAnswer, lookupAnswer, h, ih]

theorem lookupAnswer_upsert_ne (m : List (ℕ × List Char)) (k n : ℕ) (v : List Char)
    (h : k ≠ n) : lookupAnswer (upsertAnswer m k v) n = lookupAnswer m n := by
  induction m with
  | nil => simp [upsertAnswer, lookupAnswer, h]
  | cons p rest ih =>
    obtain ⟨k', v'⟩ := p
    by_cases hk : k' = k
    · subst hk; simp [upsertAnswer, lookupAnswer, h]
    · by_cases hn : k' = n <;> simp [upsertAnswer, lookupAnswer, hk, hn, ih, Ne.symm h]

theorem getLast?_cons_or {α : Type} (a : α) (L : List α) (x : Option α) :
    ((a :: L).getLast?).or x = (L.getLast?).or (some a) := by
  cases L with
  | nil => simp
  | cons b L' =>
    rw [List.getLast?_cons_cons]
    cases h : (b :: L').getLast? with
    | none => simp [List.getLast?] at h
    | some v => simp

theorem parseAnswerKey_foldl_lookup (lines : List (List Char)) (m : List (ℕ × List Char))
    (n : ℕ) :
    lookupAnswer (lines.foldl keyStep m) n
      = ((lines.filterMap (keyContrib n)).getLast?).or (lookupAnswer m n) := by
  induction lines generalizing m with
  | nil => simp
  | cons line rest ih =>
    rw [List.foldl_cons, ih]
    show _ = ((List.filterMap (keyContrib n) (line :: rest)).getLast?).or _
    rw [List.filterMap_cons]
    cases hm : answerKeyLineMatch line with
    | none => simp [keyStep, keyContrib, hm]
    | some p =>
      obtain ⟨num, cap⟩ := p
      by_cases hans : trimCollapse cap = []
      · have : keyContrib n line = none := by simp [keyContrib, hm, hans]
        simp [keyStep, hm, hans, this]
      · by_cases hnum : num = n
        · subst hnum
          have hc : keyContrib num line = some (trimCollapse cap) := by
            simp [keyContrib, hm, hans]
          rw [hc, getLast?_cons_or]
          simp [keyStep, hm, if_neg hans, lookupAnswer_upsert_self]
        · have hc : keyContrib n line = none := by simp [keyContrib, hm, hans, hnum]
          simp [keyStep, hm, hans, hc, lookupAnswer_upsert_ne _ _ _ _ hnum]

/-! ### Claims about `parseAnswerKey` -/

/-- C10: When several answer-key lines match the entry pattern with the same
leading number `n`, the map's entry for `n` is the whitespace-collapsed
answer of the last such line that contributes one (earlier answers are
silently overwritten, and no duplication is reported — `parseAnswerKey` has
no error output at all); a matching line whose answer collapses to the
empty string contributes no entry. -/
theorem parseAnswerKey_last_entry_wins (text : String) (n : ℕ) :
    lookupAnswer (parseAnswerKey text) n = lastKeyAnswer text n := by
  unfold parseAnswerKey lastKeyAnswer
  by_cases h : text = ""
  · simp [h, lookupAnswer]
  · rw [if_neg h, if_neg h, parseAnswerKeyLines, parseAnswerKey_foldl_lookup]
    simp [lookupAnswer]

/-! Digit arithmetic bridges for the decimal rendering. -/

theorem natDigitsLE_eq_digits (fuel n : ℕ) (h : n ≤ fuel) :
    natDigitsLE fuel n = Nat.digits 10 n := by
  induction fuel generalizing n with
  | zero => interval_cases n; simp [natDigitsLE]
  | succ fuel ih =>
    cases n with
    | zero => simp [natDigitsLE]
    | succ m =>
      have hstep : natDigitsLE (fuel + 1) (m + 1)
          = (m + 1) % 10 :: natDigitsLE fuel ((m + 1) / 10) := rfl
      rw [hstep, Nat.digits_def' (by norm_num : (1:ℕ) < 10) (Nat.succ_pos m)]
      congr 1
      exact ih _ (by
        have : (m + 1) / 10 < m + 1 := Nat.div_lt_self (Nat.succ_pos m) (by norm_num)
        omega)

theorem natDigitsBE_eq (n : ℕ) : natDigitsBE n = (Nat.digits 10 n).reverse := by
  rw [natDigitsBE, natDigitsLE_eq_digits n n le_rfl]

theorem digitsVal_reverse (L : List ℕ) : digitsVal L.reverse = Nat.ofDigits 10 L := by
  induction L with
  | nil => simp [digitsVal, Nat.ofDigits]
  | cons d L ih =>
    rw [List.reverse_cons, digitsVal, List.foldl_append]
    show (digitsVal L.reverse) * 10 + d = Nat.ofDigits 10 (d :: L)
    rw [ih, Nat.ofDigits_cons]
    ring

theorem digitsVal_natDigitsBE (n : ℕ) : digitsVal (natDigitsBE n) = n := by
  rw [natDigitsBE_eq, digitsVal_reverse, Nat.ofDigits_digits]

theorem natDigitsBE_lt (n : ℕ) : ∀ d ∈ natDigitsBE n, d < 10 := by
  intro d hd
  rw [natDigitsBE_eq, List.mem_reverse] at hd
  exact Nat.digits_lt_base (by norm_num) hd

theorem natDigitsBE_len_le (n k : ℕ) (h : n < Nat.pow 10 k) :
    (natDigitsBE n).length ≤ k := by
  rw [natDigitsBE_eq, List.length_reverse]
  rcases Nat.eq_zero_or_pos n with hn | hn
  · simp [hn]
  · rw [Nat.digits_len 10 n (by norm_num) (Nat.pos_iff_ne_zero.mp hn)]
    have : Nat.log 10 n < k :=
      Nat.log_lt_of_lt_pow (Nat.pos_iff_ne_zero.mp hn) (by simpa [Nat.pow_eq] using h)
    omega

theorem digitsVal_padZeros (k : ℕ) (L : List ℕ) : digitsVal (padZeros k L) = digitsVal L := by
  rw [padZeros, digitsVal, digitsVal, List.foldl_append]
  congr 1
  induction (k - L.length) with
  | zero => simp
  | succ m ih => simpa [List.replicate_succ] using ih

theorem padZeros_length (k : ℕ) (L : List ℕ) (h : L.length ≤ k) :
    (padZeros k L).length = k := by
  simp [padZeros]
  omega

theorem padZeros_lt (k : ℕ) (L : List ℕ) (h : ∀ d ∈ L, d < 10) :
    ∀ d ∈ padZeros k L, d < 10 := by
  intro d hd
  rcases List.mem_append.mp hd with hmem | hmem
  · have := List.eq_of_mem_replicate hmem
    omega
  · exact h d hmem

theorem charOfNat_digit_toNat (d : ℕ) (h : d < 10) : (Char.ofNat (48 + d)).toNat = 48 + d := by
  interval_cases d <;> decide

theorem isDig_charOfNat (d : ℕ) (h : d < 10) : isDig (Char.ofNat (48 + d)) = true := by
  interval_cases d <;> decide

theorem foldl_digit_chars (L : List ℕ) (h : ∀ d ∈ L, d < 10) (a : ℕ) :
    List.foldl (fun acc c => acc * 10 + (c.toNat - 48)) a (digitsToChars L)
      = List.foldl (fun acc d => acc * 10 + d) a L := by
  induction L generalizing a with
  | nil => rfl
  | cons d L ih =>
    simp only [digitsToChars, List.map_cons, List.foldl_cons] at ih ⊢
    rw [charOfNat_digit_toNat d (h d (by simp))]
    have he : 48 + d - 48 = d := by omega
    rw [he]
    exact ih (fun x hx => h x (by simp [hx])) _

theorem digitCharsVal_digitsToChars (L : List ℕ) (h : ∀ d ∈ L, d < 10) :
    digitCharsVal (digitsToChars L) = digitsVal L :=
  foldl_digit_chars L h 0

/-! The rewrites leave strings containing neither `√` nor `s` unchanged. -/

theorem scanReplace_eq_self (matcher : Option Char → List Char → Option (List Char × ℕ))
    (fuel : ℕ) (prev : Option Char) (l : List Char)
    (h : ∀ prev' t, t <:+ l → matcher prev' t = none) :
    scanReplace matcher fuel prev l = l := by
  induction fuel generalizing prev l with
  | zero => rfl
  | succ fuel ih =>
    cases l with
    | nil => rfl
    | cons c cs =>
      have hm := h prev (c :: cs) (List.suffix_refl _)
      show scanReplace matcher (fuel + 1) prev (c :: cs) = c :: cs
      rw [scanReplace, hm]
      exact congrArg (c :: ·)
        (ih (some c) cs (fun p t ht => h p t (ht.trans (List.suffix_cons c cs))))

theorem runReplace_eq_self (matcher : Option Char → List Char → Option (List Char × ℕ))
    (l : List Char) (h : ∀ prev' t, t <:+ l → matcher prev' t = none) :
    runReplace matcher l = l :=
  scanReplace_eq_self matcher (l.length + 1) none l h

theorem matchR1_eq_none (prev : Option Char) (t : List Char) (h : sqrtCh ∉ t) :
    matchR1 prev t = none := by
  cases t with
  | nil => rfl
  | cons c cs =>
    have : ¬ c = sqrtCh := fun hc => h (hc ▸ List.mem_cons_self c cs)
    simp [matchR1, this]

theorem matchR2_eq_none (prev : Option Char) (t : List Char) (h : sqrtCh ∉ t) :
    matchR2 prev t = none := by
  cases t with
  | nil => rfl
  | cons c cs =>
    have : ¬ c = sqrtCh := fun hc => h (hc ▸ List.mem_cons_self c cs)
    simp [matchR2, this]

theorem startsWithL_sqrt_mem (t : List Char) (h : startsWithL "sqrt".toList t = true) :
    's' ∈ t := by
  cases t with
  | nil => simp [startsWithL] at h
  | cons c cs =>
    have : 's' = c := by
      by_contra hne
      simp [show "sqrt".toList = 's' :: "qrt".toList from rfl, startsWithL, hne] at h
    exact this ▸ List.mem_cons_self c cs

theorem sqrtTail_eq_none (lead : List Char) (leadLen : ℕ) (tail : List Char)
    (h : 's' ∉ tail) : sqrtTail lead leadLen tail = none := by
  have hs : startsWithL "sqrt".toList tail = false := by
    cases hb : startsWithL "sqrt".toList tail
    · rfl
    · exact absurd (startsWithL_sqrt_mem tail hb) h
  simp only [sqrtTail]
  rw [hs]
  simp

theorem matchR3_eq_none (prev : Option Char) (t : List Char) (h : 's' ∉ t) :
    matchR3 prev t = none := by
  rw [matchR3]
  by_cases hds : t.takeWhile isDig = []
  · simp [hds]
  · have hrest : 's' ∉ t.dropWhile isDig :=
      fun hm => h ((List.dropWhile_suffix isDig).subset hm)
    simp only [if_neg hds]
    cases hd : t.dropWhile isDig with
    | nil => exact sqrtTail_eq_none _ _ _ (by simp)
    | cons c r2 =>
      rw [hd] at hrest
      have hr2 : 's' ∉ r2 := fun hm => hrest (List.mem_cons_of_mem _ hm)
      have hr2' : 's' ∉ r2.dropWhile isDig :=
        fun hm => hr2 ((List.dropWhile_suffix isDig).subset hm)
      by_cases hdot : c = '.'
      · subst hdot
        by_cases hfs : r2.takeWhile isDig = [] <;>
          simp [hfs, sqrtTail_eq_none _ _ _ hrest, sqrtTail_eq_none _ _ _ hr2']
      · simp [hdot, sqrtTail_eq_none _ _ _ hrest]

theorem matchR4_eq_none (prev : Option Char) (t : List Char) (h : 's' ∉ t) :
    matchR4 prev t = none := by
  have hs : startsWithL "sqrt".toList t = false := by
    cases hb : startsWithL "sqrt".toList t
    · rfl
    · exact absurd (startsWithL_sqrt_mem t hb) h
  simp only [matchR4]
  rw [hs]
  simp

theorem rewriteAnswerExpr_eq_self (l : List Char) (h1 : sqrtCh ∉ l) (h2 : 's' ∉ l) :
    rewriteAnswerExpr l = l := by
  rw [rewriteAnswerExpr,
    runReplace_eq_self matchR1 l (fun p t ht => matchR1_eq_none p t (fun hm => h1 (ht.subset hm))),
    runReplace_eq_self matchR2 l (fun p t ht => matchR2_eq_none p t (fun hm => h1 (ht.subset hm))),
    runReplace_eq_self matchR3 l (fun p t ht => matchR3_eq_none p t (fun hm => h2 (ht.subset hm))),
    runReplace_eq_self matchR4 l (fun p t ht => matchR4_eq_none p t (fun hm => h2 (ht.subset hm)))]

theorem dropWhile_eq_self_of_none (p : Char → Bool) (l : List Char)
    (h : ∀ c ∈ l, p c = false) : l.dropWhile p = l := by
  cases l with
  | nil => rfl
  | cons c cs => rw [List.dropWhile_cons, h c (List.mem_cons_self c cs)]; simp

theorem jsTrim_eq_self (l : List Char) (h : ∀ c ∈ l, isWs c = false) : jsTrim l = l := by
  rw [jsTrim, dropWhile_eq_self_of_none isWs l h,
    dropWhile_eq_self_of_none isWs l.reverse (fun c hc => h c (List.mem_reverse.mp hc)),
    List.reverse_reverse]

/-! Lexing a decimal numeral. -/

theorem takeWhile_all_append (p : Char → Bool) (A B : List Char) (hA : ∀ c ∈ A, p c = true) :
    (A ++ B).takeWhile p = A ++ B.takeWhile p ∧ (A ++ B).dropWhile p = B.dropWhile p := by
  induction A with
  | nil => simp
  | cons a A ih =>
    have ha := hA a (List.mem_cons_self a A)
    have ih' := ih (fun c hc => hA c (List.mem_cons_of_mem a hc))
    simp [List.takeWhile_cons, List.dropWhile_cons, ha, ih'.1, ih'.2]

theorem takeWhile_all_stop (p : Char → Bool) (A : List Char) (b : Char) (B : List Char)
    (hA : ∀ c ∈ A, p c = true) (hb : p b = false) :
    (A ++ b :: B).takeWhile p = A ∧ (A ++ b :: B).dropWhile p = b :: B := by
  obtain ⟨h1, h2⟩ := takeWhile_all_append p A (b :: B) hA
  rw [h1, h2, List.takeWhile_cons, List.dropWhile_cons, hb]
  simp

theorem takeWhile_all (p : Char → Bool) (A : List Char) (hA : ∀ c ∈ A, p c = true) :
    A.takeWhile p = A ∧ A.dropWhile p = [] := by
  have := takeWhile_all_append p A [] hA
  simpa using this

/-- A digit character is in `'0'..'9'`; each helper below rules one
tokenizer branch out for it. -/
theorem isDig_char_facts (c : Char) (h : isDig c = true) :
    isWs c = false ∧ c ≠ '+' ∧ c ≠ '-' ∧ c ≠ '*' ∧ c ≠ '/' ∧ c ≠ '^' ∧ c ≠ '(' ∧ c ≠ ')' := by
  refine ⟨?_, ?_, ?_, ?_, ?_, ?_, ?_, ?_⟩ <;>
    first
      | (by_contra hw
         simp only [Bool.not_eq_false] at hw
         rcases (by simpa [isWs, decide_eq_true_eq] using hw :
             c = ' ' ∨ c = '\t' ∨ c = '\n' ∨ c = '\r' ∨ c = Char.ofNat 11 ∨ c = Char.ofNat 12)
           with rfl | rfl | rfl | rfl | rfl | rfl <;> simp [isDig] at h)
      | (intro hne; subst hne; simp [isDig] at h)

/-- Tokenizing a pure decimal numeral `I` or `I ++ '.' ++ F` yields one
literal token carrying its exact value. -/
theorem tokenize_numeral_frac (I F : List Char) (fuel : ℕ) (c : Char) (I' : List Char)
    (hI : I = c :: I') (hId : ∀ x ∈ I, isDig x = true) (hFd : ∀ x ∈ F, isDig x = true)
    (hfuel : 1 ≤ fuel) :
    tokenize (fuel + 1) (I ++ '.' :: F)
      = some [Tok.lit ((digitCharsVal I : ℚ) + (digitCharsVal F : ℚ) / pow10q F.length)] := by
  subst hI
  have hc := hId c (List.mem_cons_self c I')
  obtain ⟨hws, h1, h2, h3, h4, h5, h6, h7⟩ := isDig_char_facts c hc
  have hlex : lexNumber ((c :: I') ++ '.' :: F)
      = some ((digitCharsVal (c :: I') : ℚ) + (digitCharsVal F : ℚ) / pow10q F.length, []) := by
    obtain ⟨ht, hd⟩ := takeWhile_all_stop isDig (c :: I') '.' F hId (by decide)
    obtain ⟨htF, hdF⟩ := takeWhile_all isDig F hFd
    rw [lexNumber]
    rw [ht, hd]
    simp only [htF, hdF]
  show tokenize (fuel + 1) ((c :: I') ++ '.' :: F) = _
  rw [List.cons_append, tokenize]
  rw [hws]
  simp only [Bool.false_eq_true, if_false, if_neg h1, if_neg h2, if_neg h3, if_neg h4,
    if_neg h5, if_neg h6, if_neg h7, if_pos (Or.inl hc), ← List.cons_append, hlex]
  obtain ⟨f2, rfl⟩ : ∃ f2, fuel = f2 + 1 := ⟨fuel - 1, by omega⟩
  rfl

/-- Tokenizing a bare integer numeral. -/
theorem tokenize_numeral_int (I : List Char) (fuel : ℕ) (c : Char) (I' : List Char)
    (hI : I = c :: I') (hId : ∀ x ∈ I, isDig x = true) (hfuel : 1 ≤ fuel) :
    tokenize (fuel + 1) I = some [Tok.lit (digitCharsVal I : ℚ)] := by
  subst hI
  have hc := hId c (List.mem_cons_self c I')
  obtain ⟨hws, h1, h2, h3, h4, h5, h6, h7⟩ := isDig_char_facts c hc
  have hlex : lexNumber (c :: I') = some ((digitCharsVal (c :: I') : ℚ), []) := by
    obtain ⟨ht, hd⟩ := takeWhile_all isDig (c :: I') hId
    rw [lexNumber, ht, hd]
  rw [tokenize, hws]
  simp only [Bool.false_eq_true, if_false, if_neg h1, if_neg h2, if_neg h3, if_neg h4,
    if_neg h5, if_neg h6, if_neg h7, if_pos (Or.inl hc), hlex]
  obtain ⟨f2, rfl⟩ : ∃ f2, fuel = f2 + 1 := ⟨fuel - 1, by omega⟩
  rfl

theorem toList_mk (l : List Char) : (String.mk l).toList = l := rfl

theorem natToChars_digits (n : ℕ) : ∀ c ∈ natToChars n, isDig c = true := by
  intro c hc
  rw [natToChars] at hc
  by_cases h : n = 0
  · simp [h] at hc
    subst hc; decide
  · rw [if_neg h] at hc
    obtain ⟨d, hd, rfl⟩ := List.mem_map.mp hc
    exact isDig_charOfNat d (natDigitsBE_lt n d hd)

theorem natToChars_ne_nil (n : ℕ) : natToChars n ≠ [] := by
  rw [natToChars]
  by_cases h : n = 0
  · simp [h]
  · rw [if_neg h]
    simp only [ne_eq, List.map_eq_nil_iff, natDigitsBE_eq, List.reverse_eq_nil_iff]
    exact Nat.digits_ne_nil_iff_ne_zero.mpr h

theorem digitCharsVal_natToChars (n : ℕ) : digitCharsVal (natToChars n) = n := by
  rw [natToChars]
  by_cases h : n = 0
  · simp [h]; decide
  · rw [if_neg h]
    have : ((natDigitsBE n).map fun d => Char.ofNat (48 + d)) = digitsToChars (natDigitsBE n) :=
      rfl
    rw [this, digitCharsVal_digitsToChars _ (natDigitsBE_lt n), digitsVal_natDigitsBE]

theorem pow10q_natCast (n : ℕ) : pow10q n = ((Nat.pow 10 n : ℕ) : ℚ) := by
  induction n with
  | zero => simp [pow10q]
  | succ n ih =>
    rw [pow10q, ih, show Nat.pow 10 (n + 1) = Nat.pow 10 n * 10 from rfl]
    push_cast
    ring

theorem tokenize_minus (fuel : ℕ) (rest : List Char) :
    tokenize (fuel + 1) ('-' :: rest) = (tokenize fuel rest).map (Tok.minus :: ·) := rfl

theorem parseE_single_lit (v : ℚ) : parseE 15 [Tok.lit v] = some (AExp.lit v, []) := rfl

theorem parseE_minus_lit (v : ℚ) :
    parseE 20 [Tok.minus, Tok.lit v] = some (AExp.neg (AExp.lit v), []) := rfl

theorem decScale_dvd (d k : ℕ) (h : decScale d = some k) : d ∣ Nat.pow 10 k := by
  have := List.find?_some h
  simpa using this

theorem abs_eq_natAbs_div (q : ℚ) : |q| = (q.num.natAbs : ℚ) / (q.den : ℚ) := by
  have hden : (0 : ℚ) < (q.den : ℚ) := by exact_mod_cast q.pos
  rw [Int.cast_natAbs, Int.cast_abs, ← abs_of_pos hden, ← abs_div, Rat.num_div_den]

theorem m_cast (q : ℚ) (k : ℕ) (hk : decScale q.den = some k) :
    ((q.num.natAbs * Nat.pow 10 k / q.den : ℕ) : ℚ) = |q| * pow10q k := by
  have hdvd : q.den ∣ q.num.natAbs * Nat.pow 10 k := (decScale_dvd _ _ hk).mul_left _
  have hm : q.num.natAbs * Nat.pow 10 k / q.den * q.den = q.num.natAbs * Nat.pow 10 k :=
    Nat.div_mul_cancel hdvd
  have hden : (q.den : ℚ) ≠ 0 := by
    exact_mod_cast q.den_nz
  rw [abs_eq_natAbs_div, pow10q_natCast, div_mul_eq_mul_div, eq_div_iff hden]
  exact_mod_cast congrArg (fun n : ℕ => (n : ℚ)) hm

theorem render_val (m k : ℕ) :
    (digitCharsVal (natToChars (m / Nat.pow 10 k)) : ℚ)
      + (digitCharsVal (digitsToChars (padZeros k (natDigitsBE (m % Nat.pow 10 k)))) : ℚ)
        / pow10q (padZeros k (natDigitsBE (m % Nat.pow 10 k))).length
      = (m : ℚ) / pow10q k := by
  have hposn : 0 < Nat.pow 10 k := by
    rw [Nat.pow_eq]
    positivity
  have hmod : m % Nat.pow 10 k < Nat.pow 10 k := Nat.mod_lt _ hposn
  have hlen : (padZeros k (natDigitsBE (m % Nat.pow 10 k))).length = k :=
    padZeros_length _ _ (natDigitsBE_len_le _ _ hmod)
  rw [digitCharsVal_natToChars,
    digitCharsVal_digitsToChars _ (padZeros_lt _ _ (natDigitsBE_lt _)),
    digitsVal_padZeros, digitsVal_natDigitsBE, hlen, pow10q_natCast]
  have hp : ((Nat.pow 10 k : ℕ) : ℚ) ≠ 0 := by
    exact_mod_cast hposn.ne'
  field_simp
  have h2 : m / Nat.pow 10 k * Nat.pow 10 k + m % Nat.pow 10 k = m := by
    rw [Nat.mul_comm] at *
    exact Nat.div_add_mod m (Nat.pow 10 k)
  exact_mod_cast congrArg (fun n : ℕ => (n : ℚ)) h2

theorem renderDecimal_toList (q : ℚ) (k : ℕ) (hk : decScale q.den = some k) :
    (renderDecimal q).toList
      = (if q.num < 0 then ['-'] else [])
        ++ natToChars (q.num.natAbs * Nat.pow 10 k / q.den / Nat.pow 10 k)
        ++ (if k = 0 then []
            else '.' :: digitsToChars (padZeros k (natDigitsBE
              (q.num.natAbs * Nat.pow 10 k / q.den % Nat.pow 10 k)))) := by
  unfold renderDecimal
  rw [hk]
  rfl

theorem renderDecimal_chars (q : ℚ) (k : ℕ) (hk : decScale q.den = some k) :
    ∀ c ∈ (renderDecimal q).toList, c = '-' ∨ c = '.' ∨ isDig c = true := by
  rw [renderDecimal_toList q k hk]
  intro c hc
  rcases List.mem_append.mp hc with h1 | h2
  · rcases List.mem_append.mp h1 with hs | hI
    · left
      by_cases hneg : q.num < 0
      · rw [if_pos hneg] at hs
        simpa using hs
      · rw [if_neg hneg] at hs
        simp at hs
    · right; right
      exact natToChars_digits _ c hI
  · by_cases hk0 : k = 0
    · rw [if_pos hk0] at h2
      simp at h2
    · rw [if_neg hk0] at h2
      rcases List.mem_cons.mp h2 with rfl | hF
      · right; left; rfl
      · right; right
        obtain ⟨d, hd, rfl⟩ := List.mem_map.mp hF
        exact isDig_charOfNat d (padZeros_lt _ _ (natDigitsBE_lt _) d hd)

theorem renderDecimal_no_ws (q : ℚ) (k : ℕ) (hk : decScale q.den = some k) :
    ∀ c ∈ (renderDecimal q).toList, isWs c = false := by
  intro c hc
  rcases renderDecimal_chars q k hk c hc with rfl | rfl | hd
  · decide
  · decide
  · exact (isDig_char_facts c hd).1

theorem renderDecimal_no_sqrtCh (q : ℚ) (k : ℕ) (hk : decScale q.den = some k) :
    sqrtCh ∉ (renderDecimal q).toList := by
  intro hc
  rcases renderDecimal_chars q k hk sqrtCh hc with h | h | h
  · exact absurd h (by decide)
  · exact absurd h (by decide)
  · exact absurd h (by decide)

theorem renderDecimal_no_s (q : ℚ) (k : ℕ) (hk : decScale q.den = some k) :
    's' ∉ (renderDecimal q).toList := by
  intro hc
  rcases renderDecimal_chars q k hk 's' hc with h | h | h
  · exact absurd h (by decide)
  · exact absurd h (by decide)
  · exact absurd h (by decide)

theorem runEval_of_tokens (o : EvalOracle) (l : List Char) (toks : List Tok)
    (h : tokenize (l.length + 1) l = some toks) :
    runEval o l
      = (match parseE (5 * toks.length + 10) toks with
          | some (e, []) => some (evalA o e)
          | _ => none) := by
  unfold runEval
  rw [h]

theorem runEval_of_single_lit (o : EvalOracle) (l : List Char) (v : ℚ)
    (h : tokenize (l.length + 1) l = some [Tok.lit v]) :
    runEval o l = some (MVal.num v) := by
  rw [runEval_of_tokens o l [Tok.lit v] h]
  show (match parseE (5 * List.length [Tok.lit v] + 10) [Tok.lit v] with
    | some (e, []) => some (evalA o e)
    | _ => none) = some (MVal.num v)
  rw [show 5 * List.length [Tok.lit v] + 10 = 15 from rfl, parseE_single_lit]
  rfl

theorem runEval_of_minus_lit (o : EvalOracle) (l : List Char) (v : ℚ)
    (h : tokenize (l.length + 1) l = some [Tok.minus, Tok.lit v]) :
    runEval o l = some (MVal.num (-v)) := by
  rw [runEval_of_tokens o l [Tok.minus, Tok.lit v] h]
  show (match parseE (5 * List.length [Tok.minus, Tok.lit v] + 10) [Tok.minus, Tok.lit v] with
    | some (e, []) => some (evalA o e)
    | _ => none) = some (MVal.num (-v))
  rw [show 5 * List.length [Tok.minus, Tok.lit v] + 10 = 20 from rfl, parseE_minus_lit]
  rfl

theorem runEval_renderDecimal (o : EvalOracle) (q : ℚ) (k : ℕ)
    (hk : decScale q.den = some k) :
    runEval o (renderDecimal q).toList = some (MVal.num q) := by
  have hRL := renderDecimal_toList q k hk
  obtain ⟨c, I', hcons⟩ := List.exists_cons_of_ne_nil
    (natToChars_ne_nil (q.num.natAbs * Nat.pow 10 k / q.den / Nat.pow 10 k))
  have hIdig := natToChars_digits (q.num.natAbs * Nat.pow 10 k / q.den / Nat.pow 10 k)
  have hIlen : 1 ≤ (natToChars (q.num.natAbs * Nat.pow 10 k / q.den / Nat.pow 10 k)).length := by
    rw [hcons]; simp
  have hpow_pos : 0 < Nat.pow 10 k := by rw [Nat.pow_eq]; positivity
  have hpowq : pow10q k ≠ 0 := by
    rw [pow10q_natCast]
    exact_mod_cast hpow_pos.ne'
  -- the absolute value carried by the literal token
  by_cases hk0 : k = 0
  · -- integer rendering
    subst hk0
    rw [if_pos rfl, List.append_nil] at hRL
    have hIv : (digitCharsVal (natToChars (q.num.natAbs * Nat.pow 10 0 / q.den / Nat.pow 10 0)) : ℚ)
        = |q| := by
      rw [digitCharsVal_natToChars]
      have hmc := m_cast q 0 hk
      simp only [pow10q, mul_one] at hmc
      simpa using hmc
    by_cases hneg : q.num < 0
    · rw [if_pos hneg, List.singleton_append] at hRL
      have htokI := tokenize_numeral_int _
        (natToChars (q.num.natAbs * Nat.pow 10 0 / q.den / Nat.pow 10 0)).length c I'
        hcons hIdig hIlen
      have htok : tokenize ((renderDecimal q).toList.length + 1) (renderDecimal q).toList
          = some [Tok.minus,
              Tok.lit (digitCharsVal (natToChars (q.num.natAbs * Nat.pow 10 0 / q.den / Nat.pow 10 0)) : ℚ)] := by
        rw [hRL]
        show tokenize (('-' :: _).length + 1) ('-' :: _) = _
        rw [List.length_cons, tokenize_minus, htokI]
        rfl
      rw [runEval_of_minus_lit o _ _ htok, hIv,
        abs_of_neg (Rat.num_neg.mp hneg), neg_neg]
    · rw [if_neg hneg, List.nil_append] at hRL
      have htokI := tokenize_numeral_int _
        (natToChars (q.num.natAbs * Nat.pow 10 0 / q.den / Nat.pow 10 0)).length c I'
        hcons hIdig hIlen
      have htok : tokenize ((renderDecimal q).toList.length + 1) (renderDecimal q).toList
          = some [Tok.lit (digitCharsVal (natToChars (q.num.natAbs * Nat.pow 10 0 / q.den / Nat.pow 10 0)) : ℚ)] := by
        rw [hRL]
        exact htokI
      rw [runEval_of_single_lit o _ _ htok, hIv,
        abs_of_nonneg (Rat.num_nonneg.mp (le_of_not_lt hneg))]
  · -- fractional rendering
    rw [if_neg hk0] at hRL
    have hFd : ∀ x ∈ digitsToChars (padZeros k (natDigitsBE
        (q.num.natAbs * Nat.pow 10 k / q.den % Nat.pow 10 k))), isDig x = true := by
      intro x hx
      obtain ⟨d, hd, rfl⟩ := List.mem_map.mp hx
      exact isDig_charOfNat d (padZeros_lt _ _ (natDigitsBE_lt _) d hd)
    have hval : (digitCharsVal (natToChars (q.num.natAbs * Nat.pow 10 k / q.den / Nat.pow 10 k)) : ℚ)
        + (digitCharsVal (digitsToChars (padZeros k (natDigitsBE
            (q.num.natAbs * Nat.pow 10 k / q.den % Nat.pow 10 k)))) : ℚ)
          / pow10q (digitsToChars (padZeros k (natDigitsBE
            (q.num.natAbs * Nat.pow 10 k / q.den % Nat.pow 10 k)))).length
        = |q| := by
      rw [digitsToChars, List.length_map, ← digitsToChars]
      rw [render_val]
      rw [m_cast q k hk, mul_div_assoc, div_self hpowq, mul_one]
    by_cases hneg : q.num < 0
    · rw [if_pos hneg, List.append_assoc, List.singleton_append] at hRL
      have hbase := tokenize_numeral_frac _ _
          ((natToChars (q.num.natAbs * Nat.pow 10 k / q.den / Nat.pow 10 k)
            ++ '.' :: digitsToChars (padZeros k (natDigitsBE
              (q.num.natAbs * Nat.pow 10 k / q.den % Nat.pow 10 k)))).length)
          c I' hcons hIdig hFd
          (by rw [hcons]; simp only [List.length_append, List.length_cons]; omega)
      have htok : tokenize ((renderDecimal q).toList.length + 1) (renderDecimal q).toList
          = some [Tok.minus, Tok.lit
              ((digitCharsVal (natToChars (q.num.natAbs * Nat.pow 10 k / q.den / Nat.pow 10 k)) : ℚ)
                + (digitCharsVal (digitsToChars (padZeros k (natDigitsBE
                    (q.num.natAbs * Nat.pow 10 k / q.den % Nat.pow 10 k)))) : ℚ)
                  / pow10q (digitsToChars (padZeros k (natDigitsBE
                    (q.num.natAbs * Nat.pow 10 k / q.den % Nat.pow 10 k)))).length)] := by
        rw [hRL]
        show tokenize (('-' :: _).length + 1) ('-' :: _) = _
        rw [List.length_cons, tokenize_minus, hbase]
        rfl
      rw [runEval_of_minus_lit o _ _ htok, hval,
        abs_of_neg (Rat.num_neg.mp hneg), neg_neg]
    · rw [if_neg hneg, List.nil_append] at hRL
      have hbase := tokenize_numeral_frac _ _
          ((natToChars (q.num.natAbs * Nat.pow 10 k / q.den / Nat.pow 10 k)
            ++ '.' :: digitsToChars (padZeros k (natDigitsBE
              (q.num.natAbs * Nat.pow 10 k / q.den % Nat.pow 10 k)))).length)
          c I' hcons hIdig hFd
          (by rw [hcons]; simp only [List.length_append, List.length_cons]; omega)
      have htok : tokenize ((renderDecimal q).toList.length + 1) (renderDecimal q).toList
          = some [Tok.lit
              ((digitCharsVal (natToChars (q.num.natAbs * Nat.pow 10 k / q.den / Nat.pow 10 k)) : ℚ)
                + (digitCharsVal (digitsToChars (padZeros k (natDigitsBE
                    (q.num.natAbs * Nat.pow 10 k / q.den % Nat.pow 10 k)))) : ℚ)
                  / pow10q (digitsToChars (padZeros k (natDigitsBE
                    (q.num.natAbs * Nat.pow 10 k / q.den % Nat.pow 10 k)))).length)] := by
        rw [hRL]
        exact hbase
      rw [runEval_of_single_lit o _ _ htok, hval,
        abs_of_nonneg (Rat.num_nonneg.mp (le_of_not_lt hneg))]

theorem renderDecimal_toList_ne_nil (q : ℚ) (k : ℕ) (hk : decScale q.den = some k) :
    (renderDecimal q).toList ≠ [] := by
  rw [renderDecimal_toList q k hk]
  intro h
  rcases List.append_eq_nil.mp h with ⟨h1, -⟩
  rcases List.append_eq_nil.mp h1 with ⟨-, h2⟩
  exact natToChars_ne_nil _ h2

theorem parseAnswerToNumber_render (o : EvalOracle) (q : ℚ) (k : ℕ)
    (hk : decScale q.den = some k) :
    parseAnswerToNumber o (renderDecimal q) = some (MVal.num q) := by
  have hne : renderDecimal q ≠ "" := by
    intro h
    apply renderDecimal_toList_ne_nil q k hk
    rw [h]
    rfl
  have htrim : jsTrim (renderDecimal q).toList = (renderDecimal q).toList :=
    jsTrim_eq_self _ (renderDecimal_no_ws q k hk)
  rw [parseAnswerToNumber, if_neg hne]
  simp only [htrim, if_neg (renderDecimal_toList_ne_nil q k hk),
    rewriteAnswerExpr_eq_self _ (renderDecimal_no_sqrtCh q k hk) (renderDecimal_no_s q k hk),
    runEval_renderDecimal o q k hk]
  simp

/-! ### Claims about `parseAnswerToNumber` -/

section
attribute [local semireducible] Rat.add Rat.sub Rat.mul Rat.inv Rat.ofScientific

/-- C2 (counterexample): on `"1/0"` — a division by zero, whose evaluation
yields the non-finite `Infinity` — `parseAnswerToNumber` returns that
`Infinity`, not `null`: the guard `!Number.isNaN(val)` admits it. This
refutes both "returns null … when evaluation yields a non-finite result"
and "it never returns a non-finite number". -/
theorem parseAnswerToNumber_one_div_zero :
    parseAnswerToNumber evalOracleJs "1/0" = some MVal.inf
      ∧ parseAnswerToNumber evalOracleJs "1/0" ≠ none := by
  constructor
  · rfl
  · intro h
    simp [show parseAnswerToNumber evalOracleJs "1/0" = some MVal.inf from rfl] at h

/-- C2 (amended): for every collaborator oracle and every input string,
`parseAnswerToNumber` returns null when the trimmed input is empty, when
the rewritten expression does not parse, and when evaluation yields `NaN`
or a non-real (complex) value; a returned value is never `NaN` and never a
non-number — but a non-finite `Infinity` result (e.g. from `"1/0"`) is
returned as a number, not mapped to null. -/
theorem parseAnswerToNumber_null_cases (o : EvalOracle) (s : String) :
    (jsTrim s.toList = [] → parseAnswerToNumber o s = none)
    ∧ (runEval o (rewriteAnswerExpr (jsTrim s.toList)) = none → parseAnswerToNumber o s = none)
    ∧ (runEval o (rewriteAnswerExpr (jsTrim s.toList)) = some MVal.nan →
        parseAnswerToNumber o s = none)
    ∧ (runEval o (rewriteAnswerExpr (jsTrim s.toList)) = some MVal.cplx →
        parseAnswerToNumber o s = none)
    ∧ (∀ v, parseAnswerToNumber o s = some v → v ≠ MVal.nan ∧ v ≠ MVal.cplx)
    ∧ parseAnswerToNumber o "1/0" = some MVal.inf := by
  refine ⟨?_, ?_, ?_, ?_, ?_, by rfl⟩
  · intro ht
    rw [parseAnswerToNumber]
    by_cases h0 : s = ""
    · rw [if_pos h0]
    · rw [if_neg h0]
      simp [show jsTrim s.data = [] from ht]
  · intro hv
    rw [parseAnswerToNumber]
    by_cases h0 : s = ""
    · rw [if_pos h0]
    · rw [if_neg h0]
      by_cases ht : jsTrim s.toList = []
      · simp [show jsTrim s.data = [] from ht]
      · simp only [if_neg ht, hv]
  · intro hv
    rw [parseAnswerToNumber]
    by_cases h0 : s = ""
    · rw [if_pos h0]
    · rw [if_neg h0]
      by_cases ht : jsTrim s.toList = []
      · simp [show jsTrim s.data = [] from ht]
      · simp only [if_neg ht, hv]
        simp
  · intro hv
    rw [parseAnswerToNumber]
    by_cases h0 : s = ""
    · rw [if_pos h0]
    · rw [if_neg h0]
      by_cases ht : jsTrim s.toList = []
      · simp [show jsTrim s.data = [] from ht]
      · simp only [if_neg ht, hv]
        simp
  · intro v hsome
    rw [parseAnswerToNumber] at hsome
    by_cases h0 : s = ""
    · rw [if_pos h0] at hsome
      exact absurd hsome (by simp)
    · rw [if_neg h0] at hsome
      by_cases ht : jsTrim s.toList = []
      · simp [show jsTrim s.data = [] from ht] at hsome
      · simp only [if_neg ht] at hsome
        cases hr : runEval o (rewriteAnswerExpr (jsTrim s.toList)) with
        | none =>
          rw [hr] at hsome
          exact absurd hsome (by simp)
        | some w =>
          rw [hr] at hsome
          have hsome2 : (if w = MVal.nan ∨ w = MVal.cplx then none else some w) = some v :=
            hsome
          by_cases hw : w = MVal.nan ∨ w = MVal.cplx
          · rw [if_pos hw] at hsome2
            exact absurd hsome2 (by simp)
          · rw [if_neg hw] at hsome2
            push_neg at hw
            obtain rfl : w = v := by simpa using hsome2
            exact hw

/-- C2 (witness): the amended theorem applied at concrete inputs — the
empty string, whitespace, an unparseable string, `"0/0"` (a `NaN`), and
`"1/0"` (returned as `Infinity`). -/
theorem parseAnswerToNumber_null_cases_witness :
    parseAnswerToNumber evalOracleJs "" = none
      ∧ parseAnswerToNumber evalOracleJs "   " = none
      ∧ parseAnswerToNumber evalOracleJs "not a number" = none
      ∧ parseAnswerToNumber evalOracleJs "0/0" = none
      ∧ parseAnswerToNumber evalOracleJs "1/0" = some MVal.inf :=
  ⟨(parseAnswerToNumber_null_cases evalOracleJs "").1 (by rfl),
    (parseAnswerToNumber_null_cases evalOracleJs "   ").1 (by rfl),
    (parseAnswerToNumber_null_cases evalOracleJs "not a number").2.1 (by rfl),
    (parseAnswerToNumber_null_cases evalOracleJs "0/0").2.2.1 (by rfl),
    (parseAnswerToNumber_null_cases evalOracleJs "anything").2.2.2.2.2⟩

/-- C9: `parseAnswerToNumber` is idempotent through rendering: whenever it
returns a finite number `q` for some input, running it again on the decimal
string rendering of `q` returns exactly `q`. The hypothesis
`decScale q.den = some k` says `q` has a finite decimal expansion, which
every machine double (a dyadic rational) has; the result holds for every
collaborator oracle, because a decimal numeral evaluates exactly. -/
theorem parseAnswerToNumber_idempotent (o : EvalOracle) (s : String) (q : ℚ) (k : ℕ)
    (_hs : parseAnswerToNumber o s = some (MVal.num q))
    (hk : decScale q.den = some k) :
    parseAnswerToNumber o (renderDecimal q) = some (MVal.num q) :=
  parseAnswerToNumber_render o q k hk

/-- C9 (witness): `"3/4"` parses to `0.75`, which renders as `"0.75"` and
parses back to exactly the same value. -/
theorem parseAnswerToNumber_idempotent_witness :
    parseAnswerToNumber evalOracleJs "3/4" = some (MVal.num (3 / 4))
      ∧ renderDecimal (3 / 4) = "0.75"
      ∧ parseAnswerToNumber evalOracleJs (renderDecimal (3 / 4)) = some (MVal.num (3 / 4)) :=
  ⟨by rfl, by rfl,
    parseAnswerToNumber_idempotent evalOracleJs "3/4" (3 / 4) 2 (by rfl) (by rfl)⟩

end

/-! ### C7: the segmenter re-numbers blocks sequentially -/

/-- Every run of the block-building loop yields blocks numbered
`seq+1, seq+2, …` in order, each with more than 10 characters of text. -/
theorem buildBlocks_spec (norm : List Char) (ms : List (ℕ × ℕ × ℕ)) :
    ∀ lastIndex lastNum seq : ℕ,
      ((buildBlocks norm ms lastIndex lastNum seq).map ProblemBlock.number
         = List.range' (seq + 1) (buildBlocks norm ms lastIndex lastNum seq).length)
      ∧ ∀ b ∈ buildBlocks norm ms lastIndex lastNum seq, 10 < b.raw.length := by
  induction ms with
  | nil =>
    intro lastIndex lastNum seq
    simp only [buildBlocks]
    split
    · split
      · rename_i h
        refine ⟨rfl, ?_⟩
        intro b hb
        simp only [List.mem_singleton] at hb
        subst hb
        exact h
      · simp
    · simp
  | cons m ms ih =>
    obtain ⟨s, li, num⟩ := m
    intro lastIndex lastNum seq
    simp only [buildBlocks]
    split
    · split
      · rename_i h
        obtain ⟨ih1, ih2⟩ := ih s num (seq + 1)
        constructor
        · simp only [List.map_cons, List.length_cons, ih1, List.range']
        · intro b hb
          rcases List.mem_cons.mp hb with h1 | h2
          · subst h1; exact h
          · exact ih2 b h2
      · exact (ih s num seq).imp id id
    · exact (ih s num seq).imp id id

/-- C7: for every input text, `splitIntoProblems` returns blocks whose
sequence numbers are exactly `1..K` in order of appearance, every returned
block has raw text longer than 10 characters, and when no numbered marker
matches the result is the empty list. -/
theorem splitIntoProblems_spec (text : String) :
    ((splitIntoProblems text).map ProblemBlock.number
       = List.range' 1 (splitIntoProblems text).length)
    ∧ (∀ b ∈ splitIntoProblems text, 10 < b.raw.length)
    ∧ (problemMarkers text = [] → splitIntoProblems text = []) := by
  unfold splitIntoProblems
  split
  · simp
  · refine ⟨(buildBlocks_spec _ _ 0 0 0).1, (buildBlocks_spec _ _ 0 0 0).2, ?_⟩
    intro hm
    rw [hm]
    simp [buildBlocks]

/-- C7 (witness): a text with no numbered markers yields no marker matches
and the empty block list. -/
theorem splitIntoProblems_spec_witness :
    problemMarkers "no markers in this text" = []
      ∧ splitIntoProblems "no markers in this text" = [] :=
  ⟨by rfl, (splitIntoProblems_spec "no markers in this text").2.2 (by rfl)⟩

/-! ### C8: the fidelity validator's warning conditions -/

theorem mem_of_mem_dedupeL {α : Type} [DecidableEq α] {a : α} :
    ∀ {l : List α}, a ∈ dedupeL l → a ∈ l := by
  intro l
  induction l with
  | nil => simp [dedupeL]
  | cons x xs ih =>
    intro h
    rcases List.mem_cons.mp h with h | h
    · exact h ▸ List.mem_cons_self x xs
    · exact List.mem_cons_of_mem x (ih (List.mem_of_mem_filter h))

/-- Every match of the numeric-literal scan is a nonempty string. -/
theorem numScan_ne_nil : ∀ (fuel : ℕ) (l : List Char), ∀ n ∈ numScan fuel l, n ≠ [] := by
  intro fuel
  induction fuel with
  | zero => intro l n hn; simp [numScan] at hn
  | succ fuel ih =>
    intro l
    match l with
    | [] => intro n hn; simp [numScan] at hn
    | c :: cs =>
      intro n hn
      simp only [numScan] at hn
      by_cases hd : isDig c
      · rw [if_pos hd] at hn
        have hds : (c :: cs).takeWhile isDig = c :: cs.takeWhile isDig := by
          simp [List.takeWhile_cons, hd]
        rw [hds] at hn
        split at hn
        · rename_i r2 heq
          split at hn
          · rcases List.mem_cons.mp hn with h | h
            · simp [h]
            · exact ih _ n h
          · rcases List.mem_cons.mp hn with h | h
            · simp [h]
            · exact ih _ n h
        · rcases List.mem_cons.mp hn with h | h
          · simp [h]
          · exact ih _ n h
      · rw [if_neg hd] at hn
        exact ih _ n hn

/-- The code's length filter on the extracted numeric literals is the
identity: the scanner never yields an empty literal. -/
theorem extractCritical_numbers_filter (t : List Char) :
    (extractCritical t).numbers.filter (fun n => 1 ≤ n.length)
      = (extractCritical t).numbers := by
  apply List.filter_eq_self.mpr
  intro n hn
  simp only [extractCritical] at hn
  have hne : n ≠ [] := numScan_ne_nil _ _ n (mem_of_mem_dedupeL hn)
  have hp : 0 < n.length := List.length_pos.mpr hne
  simp [Nat.one_le_iff_ne_zero, Nat.pos_iff_ne_zero.mp hp]

theorem filterMap_circle_ne_nil (cs oc : List (List Char)) (pn : ℕ) :
    (cs.filterMap (fun c =>
      if circleLetter c ∈ oc then none
      else some (circleWarningMsg pn (circleLetter c)
        (oc.filter (fun x => x ≠ circleLetter c)))) ≠ [])
      ↔ ∃ c ∈ cs, circleLetter c ∉ oc := by
  rw [ne_eq, List.filterMap_eq_nil_iff]
  constructor
  · intro h
    by_contra hx
    push_neg at hx
    apply h
    intro c hc
    rw [if_pos (hx c hc)]
  · intro ⟨c, hc, hm⟩ h
    have := h c hc
    rw [if_neg hm] at this
    exact Option.some_ne_none _ this

theorem ite_singleton_ne_nil {α : Type} (P : Prop) [Decidable P] (x : α) :
    (if P then [x] else []) ≠ [] ↔ P := by
  by_cases h : P <;> simp [h]

theorem append3_ne_nil {α : Type} (A B C : List α) :
    A ++ B ++ C ≠ [] ↔ A ≠ [] ∨ B ≠ [] ∨ C ≠ [] := by
  simp only [ne_eq, List.append_eq_nil, not_and_or]
  tauto

/-- C8 (amended): for a nonempty source and a nonempty candidate,
`validateFidelity` emits at least one warning exactly when a labeled
entity of the source is absent or renamed among the candidate's labels,
or the overlap ratio of source tokens of length at least 3 is below 0.6,
or more than 30% of the source's numeric literals occur neither among the
candidate's literals nor verbatim in its text. (With an empty source or
candidate the check short-circuits to no warnings.) -/
theorem validateFidelity_iff (sourceRaw aiOutput : List Char) (n : ℕ)
    (hs : sourceRaw ≠ []) (ha : aiOutput ≠ []) :
    validateFidelity sourceRaw aiOutput n ≠ [] ↔
      (circleMissing (extractCritical sourceRaw) (extractCritical aiOutput)
        ∨ overlapRatio (extractCritical sourceRaw) (extractCritical aiOutput) < 3 / 5
        ∨ numbersMissingFrac (extractCritical sourceRaw) (extractCritical aiOutput)
            aiOutput) := by
  have hguard : ¬ (sourceRaw = [] ∨ aiOutput = []) := by
    rintro (h | h)
    · exact hs h
    · exact ha h
  simp only [validateFidelity, eq_false hguard, if_false]
  rw [append3_ne_nil, extractCritical_numbers_filter]
  apply or_congr
  · rw [filterMap_circle_ne_nil]
    unfold circleMissing
    rfl
  · apply or_congr
    · exact ite_singleton_ne_nil _ _
    · rw [ite_singleton_ne_nil]
      unfold numbersMissingFrac
      rfl

/-- C8 (witness): a renamed circle label in an otherwise faithful candidate
makes the validator warn. -/
theorem validateFidelity_iff_witness :
    validateFidelity "Circle D has radius 5000 units.".toList
      "Circle E has radius 5000 units.".toList 7 ≠ [] :=
  (validateFidelity_iff "Circle D has radius 5000 units.".toList
      "Circle E has radius 5000 units.".toList 7 (by decide) (by decide)).mpr
    (Or.inl (by decide))

/-- C8 (counterexample): an empty candidate short-circuits the check, so a
labeled entity present in the source and absent from the candidate yields
no warning at all, against the claimed exact characterisation. -/
theorem validateFidelity_empty_candidate :
    (extractCritical "Circle D has radius 5000 units.".toList).circles
        = ["circle d".toList]
      ∧ circleMissing (extractCritical "Circle D has radius 5000 units.".toList)
          (extractCritical [])
      ∧ validateFidelity "Circle D has radius 5000 units.".toList [] 7 = [] := by
  refine ⟨by rfl, by decide, by rfl⟩

/-! ### C3, C4: the per-item reconciliation -/

theorem reconcileItems_append (o : EvalOracle) (am : AnswerMap) (ys : List AIItem) :
    ∀ (xs : List AIItem) (i : ℕ),
      reconcileItems o am i (xs ++ ys)
        = ((reconcileItems o am i xs).1 ++ (reconcileItems o am (i + xs.length) ys).1,
           (reconcileItems o am i xs).2 ++ (reconcileItems o am (i + xs.length) ys).2) := by
  intro xs
  induction xs with
  | nil => intro i; simp [reconcileItems]
  | cons x xs ih =>
    intro i
    have hl : i + (x :: xs).length = (i + 1) + xs.length := by
      simp [List.length_cons]; omega
    simp only [List.cons_append, reconcileItems]
    rw [show List.append xs ys = xs ++ ys from rfl, ih (i + 1), hl]
    simp [List.append_assoc]

/-- C4: an item whose selected answer string is non-empty but fails to
normalize contributes no result and exactly one recorded error naming its
problem number; the items before it and after it contribute exactly what
they contribute in any batch at their positions. -/
theorem reconcile_single_failure (o : EvalOracle) (am : AnswerMap)
    (xs ys : List AIItem) (bad : AIItem)
    (hne : selectedAnswer am xs.length bad ≠ [])
    (hparse : parseAnswerToNumber o (String.mk (selectedAnswer am xs.length bad)) = none) :
    reconcileItems o am 0 (xs ++ bad :: ys)
      = ((reconcileItems o am 0 xs).1 ++ (reconcileItems o am (xs.length + 1) ys).1,
         (reconcileItems o am 0 xs).2
           ++ (itemNum xs.length bad,
               invalidAnswerMsg (itemNum xs.length bad) (selectedAnswer am xs.length bad))
             :: (reconcileItems o am (xs.length + 1) ys).2) := by
  rw [reconcileItems_append]
  have hc : itemContribution o am xs.length bad
      = ([], [(itemNum xs.length bad,
          invalidAnswerMsg (itemNum xs.length bad) (selectedAnswer am xs.length bad))]) := by
    simp only [itemContribution]
    rw [if_pos ⟨hparse, hne⟩]
  simp [reconcileItems, hc]

/-- C3 (amended): the reconciliation prefers the caller's answer-key value
when one exists for the item's number and falls back to the backend's own
answer otherwise; a selected answer that is non-empty but unparseable drops
the item with a recorded error (and no `0` answer), while an empty selected
answer records no error and yields answer `0` for whatever the item
contributes. -/
theorem itemContribution_answer_policy (o : EvalOracle) (am : AnswerMap)
    (i : ℕ) (item : AIItem) :
    (∀ a, lookupAnswer am (itemNum i item) = some a → selectedAnswer am i item = a)
    ∧ (lookupAnswer am (itemNum i item) = none → selectedAnswer am i item = item.answer)
    ∧ (parseAnswerToNumber o (String.mk (selectedAnswer am i item)) = none →
        selectedAnswer am i item ≠ [] →
        itemContribution o am i item
          = ([], [(itemNum i item,
              invalidAnswerMsg (itemNum i item) (selectedAnswer am i item))]))
    ∧ (selectedAnswer am i item = [] →
        (itemContribution o am i item).2 = []
          ∧ ∀ r ∈ (itemContribution o am i item).1, r.answer = MVal.num 0) := by
  refine ⟨?_, ?_, ?_, ?_⟩
  · intro a h
    simp [selectedAnswer, h]
  · intro h
    simp [selectedAnswer, h]
  · intro hparse hne
    simp only [itemContribution]
    rw [if_pos ⟨hparse, hne⟩]
  · intro hsel
    simp only [itemContribution, hsel]
    have hfalse : ¬ (parseAnswerToNumber o (String.mk ([] : List Char)) = none
        ∧ ([] : List Char) ≠ []) := by
      rintro ⟨_, h⟩
      exact h rfl
    rw [if_neg hfalse]
    constructor
    · split
      all_goals split
      all_goals rfl
    · split
      all_goals split
      all_goals intro r hr
      all_goals simp only [List.not_mem_nil, List.mem_singleton] at hr
      all_goals subst hr
      all_goals rfl

/-! ### C6: the correction loop's call cap -/

theorem correctionGo_calls_le (o : EvalOracle) (am : AnswerMap)
    (sps : List ProblemBlock) (resp : ℕ → AIResponse) :
    ∀ (remaining : ℕ) (content : AIResponse) (calls : ℕ),
      (correctionGo o am sps resp remaining content calls).2 ≤ calls + remaining := by
  intro remaining
  induction remaining with
  | zero =>
    intro content calls
    match content with
    | .malformed msg => simp [correctionGo]
    | .items items => simp [correctionGo]
  | succ remaining ih =>
    intro content calls
    match content with
    | .malformed msg => simp [correctionGo]
    | .items items =>
      simp only [correctionGo]
      split
      · simp
      · exact le_trans (ih (resp calls) (calls + 1)) (by omega)

theorem correctionGo_warnings (o : EvalOracle) (am : AnswerMap)
    (sps : List ProblemBlock) (resp : ℕ → AIResponse) :
    ∀ (remaining : ℕ) (content : AIResponse) (calls : ℕ) (out : ProcOutcome),
      (correctionGo o am sps resp remaining content calls).1 = Except.ok out →
      ∀ w ∈ fidelityFor sps out.results, (0, w) ∈ out.errors := by
  intro remaining
  induction remaining with
  | zero =>
    intro content calls out h w hw
    match content with
    | .malformed msg => simp [correctionGo] at h
    | .items items =>
      simp only [correctionGo] at h
      cases h
      refine List.mem_append_right _ ?_
      exact List.mem_map.mpr ⟨w, hw, rfl⟩
  | succ remaining ih =>
    intro content calls out h w hw
    match content with
    | .malformed msg => simp [correctionGo] at h
    | .items items =>
      simp only [correctionGo] at h
      split at h
      · cases h
        rename_i hfw
        rw [hfw] at hw
        simp at hw
      · exact ih (resp calls) (calls + 1) out h w hw

/-- C6: the correction loop performs at most one corrective re-prompt: the
backend is called at most twice in total, and in the returned outcome every
fidelity warning still present for the final results appears in the error
list (as a number-0 entry) instead of triggering further calls. -/
theorem processFullTextWithAI_correction_cap (o : EvalOracle) (am : AnswerMap)
    (text : String) (resp : ℕ → AIResponse) :
    (processFullTextWithAI o am text resp).2 ≤ 2
    ∧ (∀ out, (processFullTextWithAI o am text resp).1 = Except.ok out →
        ∀ w ∈ fidelityFor (splitIntoProblems text) out.results,
          ((0 : ℕ), w) ∈ out.errors) := by
  constructor
  · exact correctionGo_calls_le o am (splitIntoProblems text) resp
      MAX_CORRECTIONS (resp 0) 1
  · intro out h
    exact correctionGo_warnings o am (splitIntoProblems text) resp
      MAX_CORRECTIONS (resp 0) 1 out h

/-- Concrete items for the reconciliation witness and counterexample. -/
def goodItemA : AIItem :=
  ⟨some 1, "What is one plus one?".toList, [], none, [], "2".toList⟩

def badItemB : AIItem :=
  ⟨some 2, "What is two plus two?".toList, [], none, [], "abc".toList⟩

def goodItemC : AIItem :=
  ⟨some 3, "What is three plus three?".toList, [], none, [], "6".toList⟩

/-- C4 (witness): in a three-item batch whose middle item has the
unparseable answer `abc`, exactly that item is dropped with the
number-naming error and the neighbours are returned. -/
theorem reconcile_single_failure_witness :
    reconcileItems evalOracleJs [] 0 [goodItemA, badItemB, goodItemC]
      = ((reconcileItems evalOracleJs [] 0 [goodItemA]).1
           ++ (reconcileItems evalOracleJs [] 2 [goodItemC]).1,
         (reconcileItems evalOracleJs [] 0 [goodItemA]).2
           ++ (2, invalidAnswerMsg 2 "abc".toList)
             :: (reconcileItems evalOracleJs [] 2 [goodItemC]).2) :=
  reconcile_single_failure evalOracleJs [] [goodItemA] [goodItemC] badItemB
    (by decide) (by rfl)

/-- C3 (counterexample): with no key entry and an empty backend answer
(nothing parses), the item is returned with answer `0` and no recorded
error; with a non-empty unparseable answer, an error is recorded but no
`0`-answer result is produced. -/
theorem reconcile_zero_silent :
    (reconcileItems evalOracleJs [] 0
        [⟨some 3, "What is one plus one?".toList, [], none, [], []⟩]).1.map
          ResultItem.answer = [MVal.num 0]
      ∧ (reconcileItems evalOracleJs [] 0
          [⟨some 3, "What is one plus one?".toList, [], none, [], []⟩]).2 = []
      ∧ (reconcileItems evalOracleJs [] 0
          [⟨some 4, "What is two plus two?".toList, [], none, [], "abc".toList⟩]).1 = []
      ∧ (reconcileItems evalOracleJs [] 0
          [⟨some 4, "What is two plus two?".toList, [], none, [], "abc".toList⟩]).2
          = [(4, invalidAnswerMsg 4 "abc".toList)] :=
  ⟨by rfl, by rfl, by rfl, by rfl⟩

/-! ### C5: the retry policy of the extraction client -/

theorem attemptLoop_calls_le (gen : ℕ → CallOutcome) :
    ∀ (fuel c : ℕ), (attemptLoop gen fuel c).2.1 ≤ c + fuel := by
  intro fuel
  induction fuel with
  | zero => intro c; simp [attemptLoop]
  | succ fuel ih =>
    intro c
    simp only [attemptLoop]
    match gen c with
    | .ok t => simp
    | .fail msg =>
      simp only []
      split
      · simp
      · split
        · simp
        · split
          · simp
          · have := ih (c + 1)
            simp only []
            omega

theorem modelLoop_calls_le (gen : ℕ → CallOutcome) :
    ∀ (m c : ℕ), (modelLoop gen m c).2.1 ≤ c + 3 * m := by
  intro m
  induction m with
  | zero => intro c; simp [modelLoop]
  | succ m ih =>
    intro c
    simp only [modelLoop]
    have ha := attemptLoop_calls_le gen 3 c
    match hA : attemptLoop gen 3 c with
    | (.success out, calls2, sl) => rw [hA] at ha; simp at ha ⊢; omega
    | (.thrown msg, calls2, sl) => rw [hA] at ha; simp at ha ⊢; omega
    | (.broke msg, calls2, sl) =>
      rw [hA] at ha
      simp only [] at ha ⊢
      split
      · split
        · simp; omega
        · have := ih calls2
          simp only []
          omega
      · simp; omega

/-- C5 (amended): the client makes at most 3 calls for any one model and
at most 15 in total.  When a model's attempt loop ends with a pending
error, the client advances to the next model — with that model's 3-attempt
budget intact — exactly when the message passes the separate advance test
(`NOT_FOUND`, `404`, `RESOURCE_EXHAUSTED`, `quota`, `429`); otherwise that
pending error is thrown.  A 404-classified error breaks the attempt loop
after a single call with no sleep, regardless of the remaining budget (so
a matching advance-test form moves on immediately, while a message
matching only the lowercase `not found` form is thrown).  A
429-classified error below the attempt cap sleeps 20 s and retries the
same model, and at the cap breaks the attempt loop (after which
`RESOURCE_EXHAUSTED`/`quota`/`429` forms advance while a message matching
only `rate.?limit` is thrown).  Any other error is not fatal immediately:
below the cap it sleeps 2 s and retries the same model, and at the cap it
sleeps 2 s and then throws. -/
theorem callAI_retry_policy (gen : ℕ → CallOutcome) (msg : List Char) (c r : ℕ)
    (hfail : gen c = .fail msg) :
    ((attemptLoop gen 3 c).2.1 ≤ c + 3 ∧ (callAI gen).2.1 ≤ 15)
    ∧ (∀ (m : ℕ) (msg2 : List Char) (calls2 : ℕ) (sl : List ℕ),
        attemptLoop gen 3 c = (.broke msg2, calls2, sl) →
        (tryNextP msg2 = true →
          modelLoop gen (m + 2) c = ((modelLoop gen (m + 1) calls2).1,
            (modelLoop gen (m + 1) calls2).2.1,
            sl ++ (modelLoop gen (m + 1) calls2).2.2))
        ∧ (tryNextP msg2 = false →
          modelLoop gen (m + 1) c = (.error msg2, calls2, sl)))
    ∧ (is404 msg = true →
        attemptLoop gen (r + 1) c = (.broke msg, c + 1, []))
    ∧ (is404 msg = false → is429 msg = true →
        attemptLoop gen (r + 2) c = ((attemptLoop gen (r + 1) (c + 1)).1,
          (attemptLoop gen (r + 1) (c + 1)).2.1,
          20000 :: (attemptLoop gen (r + 1) (c + 1)).2.2))
    ∧ (is404 msg = false → is429 msg = true →
        attemptLoop gen 1 c = (.broke msg, c + 1, []))
    ∧ (is404 msg = false → is429 msg = false →
        attemptLoop gen (r + 2) c = ((attemptLoop gen (r + 1) (c + 1)).1,
          (attemptLoop gen (r + 1) (c + 1)).2.1,
          2000 :: (attemptLoop gen (r + 1) (c + 1)).2.2))
    ∧ (is404 msg = false → is429 msg = false →
        attemptLoop gen 1 c = (.thrown msg, c + 1, [2000])) := by
  refine ⟨⟨attemptLoop_calls_le gen 3 c, ?_⟩, ?_, ?_, ?_, ?_, ?_, ?_⟩
  · have := modelLoop_calls_le gen 5 0
    simpa [callAI] using this
  · intro m msg2 calls2 sl hA
    constructor
    · intro ht
      simp [modelLoop, hA, ht]
    · intro ht
      simp [modelLoop, hA, ht]
  · intro h4
    simp [attemptLoop, hfail, h4]
  · intro h4 h9
    simp [attemptLoop, hfail, h4, h9]
  · intro h4 h9
    simp [attemptLoop, hfail, h4, h9]
  · intro h4 h9
    simp [attemptLoop, hfail, h4, h9]
  · intro h4 h9
    simp [attemptLoop, hfail, h4, h9]

/-- Backend trace for the retry-policy witness: one 429, then success. -/
def gen429 : ℕ → CallOutcome :=
  fun i => if i = 0 then .fail "429 too many requests".toList else .ok "ok".toList

/-- C5 (witness): a 429 error below the attempt cap sleeps 20 s and retries
the same model. -/
theorem callAI_retry_policy_witness :
    attemptLoop gen429 3 0 = ((attemptLoop gen429 2 1).1,
      (attemptLoop gen429 2 1).2.1, 20000 :: (attemptLoop gen429 2 1).2.2) :=
  ((callAI_retry_policy gen429 "429 too many requests".toList 0 1
    (by rfl)).2.2.2.1 (by rfl) (by rfl))

/-- C5 (counterexample): a generic error (no 404 or 429 class) is not fatal
immediately: the client sleeps 2 s and retries the same model, which then
succeeds.  A `not found`-classified error, which the claim says advances to
the next model, is in fact thrown after a single call, and an error
matching only `rate.?limit` is thrown after one model's three attempts:
the advance test recognises neither form, while a `429` error walks
through all five models (15 calls). -/
theorem callAI_generic_retry :
    callAI (fun i => if i = 0 then .fail "boom".toList else .ok "hi".toList)
        = (.ok "hi".toList, 2, [2000])
      ∧ callAI (fun _ => .fail "model not found".toList)
        = (.error "model not found".toList, 1, [])
      ∧ callAI (fun _ => .fail "rate limited".toList)
        = (.error "rate limited".toList, 3, [20000, 20000])
      ∧ (callAI (fun _ => .fail "429".toList)).2.1 = 15 :=
  ⟨by rfl, by rfl, by rfl, by rfl⟩

/-! ### C1: which paths check for an empty answer key -/

theorem correctionGo_calls_ge (o : EvalOracle) (am : AnswerMap)
    (sps : List ProblemBlock) (resp : ℕ → AIResponse) :
    ∀ (remaining : ℕ) (content : AIResponse) (calls : ℕ),
      calls ≤ (correctionGo o am sps resp remaining content calls).2 := by
  intro remaining
  induction remaining with
  | zero =>
    intro content calls
    match content with
    | .malformed msg => simp [correctionGo]
    | .items items => simp [correctionGo]
  | succ remaining ih =>
    intro content calls
    match content with
    | .malformed msg => simp [correctionGo]
    | .items items =>
      simp only [correctionGo]
      split
      · simp
      · exact le_trans (by omega) (ih (resp calls) (calls + 1))

/-- The loop's call counter only grows, so the AI path always reaches the
backend at least once. -/
theorem processFullTextWithAI_calls_ge (o : EvalOracle) (am : AnswerMap)
    (text : String) (resp : ℕ → AIResponse) :
    1 ≤ (processFullTextWithAI o am text resp).2 :=
  correctionGo_calls_ge o am (splitIntoProblems text) resp MAX_CORRECTIONS (resp 0) 1

/-- C1 (amended): when the extracted text passes the length check, the AI
path performs no answer-key validation at all: even with an answer-key text
that parses to an empty map it always reaches the generative backend (at
least one call); the missing-key validation error is raised only on the
no-AI path (stated for a document with at least one problem block, so that
the key check is the one that fires). -/
theorem importPdfToDatabase_empty_key (o : EvalOracle) (resp : ℕ → AIResponse)
    (text : List Char) (key : String)
    (hlen : 100 ≤ text.length) (hkey : parseAnswerKey key = []) :
    1 ≤ (importPdfToDatabase o resp text key true).2
    ∧ (splitIntoProblems (String.mk (sectionTrim text)) ≠ [] →
        importPdfToDatabase o resp text key false
          = (.error ("Answer key is required when not using AI. "
              ++ "Paste answers in format: 1. 42, 2. 3/4, etc.").toList, 0)) := by
  have hguard : ¬ (text = [] ∨ text.length < 100) := by
    rintro (h | h)
    · rw [h] at hlen
      simp at hlen
    · omega
  constructor
  · have h1 : importPdfToDatabase o resp text key true
        = (match processFullTextWithAI o (parseAnswerKey key)
              (String.mk (sectionTrim text)) resp with
           | (.ok out, calls) =>
             (.ok ⟨out.results.length, extractSourceName (sectionTrim text),
               out.errors.map Prod.snd⟩, calls)
           | (.error msg, calls) =>
             (.ok ⟨0, extractSourceName (sectionTrim text), [msg]⟩, calls)) := by
      simp only [importPdfToDatabase]
      rw [if_neg hguard, if_neg (by simp), if_neg (by simp), if_pos (by simp)]
    rw [h1]
    rcases hP : processFullTextWithAI o (parseAnswerKey key)
        (String.mk (sectionTrim text)) resp with ⟨res, calls⟩
    have hge := processFullTextWithAI_calls_ge o (parseAnswerKey key)
      (String.mk (sectionTrim text)) resp
    rw [hP] at hge
    cases res <;> simpa using hge
  · intro hprob
    simp only [importPdfToDatabase]
    rw [if_neg hguard,
      if_neg (by
        rintro ⟨-, h⟩
        exact hprob (List.length_eq_zero.mp h)),
      if_pos ⟨by simp, by rw [hkey]; rfl⟩]

/-- A 132-character extracted text with two problem blocks, for the import
counterexample and witness. -/
def importTextEx : List Char :=
  ("2024\nMock Competition Alpha Beta\n1. What is one plus one plus one plus one?\n"
    ++ "2. What is two plus two, quantity squared, minus three?\n").toList

set_option maxRecDepth 16384 in
/-- C1 (counterexample): with the AI path selected and an answer-key text
that parses to an empty map, the import does not fail: it reaches the
generative backend (one call) and resolves normally, against the claimed
pre-extraction validation failure. -/
theorem importPdf_ai_empty_key_proceeds :
    parseAnswerKey "" = []
      ∧ (importPdfToDatabase evalOracleJs (fun _ => AIResponse.items [])
          importTextEx "" true).2 = 1
      ∧ (importPdfToDatabase evalOracleJs (fun _ => AIResponse.items [])
          importTextEx "" true).1
          = Except.ok ⟨0, "2024 - Mock Competition Alpha Beta".toList,
              [("Expected 2 problems from source but AI returned 0. "
                ++ "Some problems may be missing.").toList]⟩ :=
  ⟨by rfl, by rfl, by rfl⟩

set_option maxRecDepth 16384 in
/-- C1 (witness): on the same document the AI path calls the backend while
the no-AI path raises the missing-key error. -/
theorem importPdfToDatabase_empty_key_witness :
    1 ≤ (importPdfToDatabase evalOracleJs (fun _ => AIResponse.items [])
        importTextEx "" true).2
    ∧ importPdfToDatabase evalOracleJs (fun _ => AIResponse.items [])
        importTextEx "" false
        = (.error ("Answer key is required when not using AI. "
            ++ "Paste answers in format: 1. 42, 2. 3/4, etc.").toList, 0) :=
  have h := importPdfToDatabase_empty_key evalOracleJs (fun _ => AIResponse.items [])
    importTextEx "" (by decide) (by rfl)
  ⟨h.1, h.2 (by decide)⟩
